import Mathlib

/-!
Shallow embedding of the expiring key-value store layer of the ts-utils
repository: the synchronous localStorage-backed store (`src/localStore.ts`,
class `LocalStore`, and the factory variant `createLocalStore`), the durable
IndexedDB-backed store (`src/kvStore.ts`, `createKvStore`), their expiry
envelope and validators, and the shared GC watermark policy.

Modelling conventions:
* JSON-serializable values are the inductive `JsVal`; JavaScript `undefined`
  is represented by `Option` (a missing object property reads as `none`).
* The synchronous medium (localStorage) is an association list from string
  keys to stored text; text is either a serialized JSON document
  (`LSText.json v`, the output of `JSON.stringify`) or unparseable garbage.
* Epoch milliseconds are `Int`; each operation takes the value of `Date.now()`
  as an explicit `now` argument (a single operation uses one `now`).
* The mutually recursive knot `getStoredObject -> gc -> gcNow -> forEach ->
  getStoredObject` of the synchronous store is tied with an explicit fuel
  parameter (`gcFuelL`); nested `gc` calls consume one unit of fuel.
-/

namespace TsUtils

/-- JSON-serializable value (the store's value domain per the data model:
values are JSON-serializable; `undefined` is disallowed and modelled as
`Option.none` where it can occur). -/
inductive JsVal where
  | jnull
  | jbool (b : Bool)
  | jnum (n : Int)
  | jstr (s : String)
  | jarr (elems : List JsVal)
  | jobj (fields : List (String × JsVal))

/-- Property access `v[k]` as in JavaScript: only objects have named
properties here; a missing property is `none` (i.e. `undefined`). Later
duplicate fields win, as with `JSON.parse`. -/
def jprop (v : JsVal) (k : String) : Option JsVal :=
  match v with
  | .jobj fields => fields.foldl (fun acc p => if p.1 = k then some p.2 else acc) none
  | _ => none

/-- JavaScript falsiness of a JSON value (`!obj`). -/
def isFalsy : JsVal → Bool
  | .jnull => true
  | .jbool b => !b
  | .jnum n => n == 0
  | .jstr s => s == ""
  | _ => false

/-- The check `typeof obj === "object"` restricted to non-null values already
known to be truthy: arrays and objects. -/
def isObjLike : JsVal → Bool
  | .jobj _ => true
  | .jarr _ => true
  | _ => false

/-- The check `typeof x === "number"` on a possibly-undefined property. -/
def isNumOpt : Option JsVal → Bool
  | some (.jnum _) => true
  | _ => false

/-- The check `typeof x === "string"` on a possibly-undefined property. -/
def isStrOpt : Option JsVal → Bool
  | some (.jstr _) => true
  | _ => false

/-- Numeric `expiryMs` property of a validated envelope (0 if absent). -/
def jexpiry (v : JsVal) : Int :=
  match jprop v "expiryMs" with
  | some (.jnum n) => n
  | _ => 0

/-- Numeric `storedMs` property of a validated envelope (0 if absent). -/
def jstored (v : JsVal) : Int :=
  match jprop v "storedMs" with
  | some (.jnum n) => n
  | _ => 0

/-! Time constants from `src/timeConstants.ts`. -/

def MS_PER_SECOND : Int := 1000

def MS_PER_MINUTE : Int := 60000

def MS_PER_HOUR : Int := 3600000

def MS_PER_DAY : Int := 86400000

/-- Structured duration from `src/duration.ts` (its `Duration` type). -/
structure Duration where
  days : Option Int := none
  hours : Option Int := none
  minutes : Option Int := none
  seconds : Option Int := none
  milliseconds : Option Int := none

/-- Source `durationToMs` (duration code in the repository sources). -/
def durationToMs (d : Duration) : Int :=
  (d.days.getD 0) * MS_PER_DAY + (d.hours.getD 0) * MS_PER_HOUR +
    (d.minutes.getD 0) * MS_PER_MINUTE + (d.seconds.getD 0) * MS_PER_SECOND +
    (d.milliseconds.getD 0)

/-- Argument type `number | Duration` used by the stores. -/
inductive DurOrMs where
  | ms (n : Int)
  | dur (d : Duration)

/-- Modelled from the spec: `durationOrMsToMs` is imported by both stores from
`src/duration.ts`, whose text is not among the provided source files; per the
spec the duration utility accepts either a raw millisecond count or a
structured duration object (converted with the source `durationToMs`). -/
def durationOrMsToMs : DurOrMs → Int
  | .ms n => n
  | .dur d => durationToMs d

/-- JavaScript truthiness of a `number | Duration` value (used by the
constructors: `options?.defaultExpiryMs ? ... : ...`). -/
def durTruthy : DurOrMs → Bool
  | .ms n => n != 0
  | .dur _ => true

/-- Text stored in the synchronous string medium: either a serialized JSON
document (what `JSON.stringify` produced, and what `JSON.parse` recovers) or
text that is not valid JSON (`JSON.parse` throws). -/
inductive LSText where
  | json (v : JsVal)
  | garbage (s : String)

/-- The synchronous medium (localStorage): an association list from full
storage keys to stored text, in key-insertion order. -/
abbrev LS := List (String × LSText)

/-- The medium's `getItem` (first binding wins; faithful states have unique
keys). -/
def lsGetItem : LS → String → Option LSText
  | [], _ => none
  | (k1, t) :: rest, k => if k1 = k then some t else lsGetItem rest k

/-- The medium's `setItem`: replace in place, else append. -/
def lsSetItem : LS → String → LSText → LS
  | [], k, t => [(k, t)]
  | (k1, t1) :: rest, k, t =>
      if k1 = k then (k, t) :: rest else (k1, t1) :: lsSetItem rest k t

/-- The medium's `removeItem`. -/
def lsRemoveItem : LS → String → LS
  | [], _ => []
  | (k1, t1) :: rest, k =>
      if k1 = k then lsRemoveItem rest k else (k1, t1) :: lsRemoveItem rest k

/-- The medium's `Object.keys(localStorage)` enumeration. -/
def lsKeys (ls : LS) : List String := ls.map (fun p => p.1)

/-- The `JSON.parse` attempt on stored text: `none` models a thrown error. -/
def jsonParse : LSText → Option JsVal
  | .json v => some v
  | .garbage _ => none

/-- JavaScript falsiness of the raw stored text (`!stored`): only the empty
string is falsy; serialized JSON documents are never empty. -/
def textFalsy : LSText → Bool
  | .garbage s => s == ""
  | .json _ => false

/-- The JavaScript `k.startsWith(p)` on our string model. -/
def strStartsWith (s p : String) : Bool := p.data.isPrefixOf s.data

/-- The JavaScript `k.slice(n)` (drop the first `n` code units). -/
def strDropN (s : String) (n : Nat) : String := String.mk (s.data.drop n)

/-! The synchronous store engine (`src/localStore.ts`, class `LocalStore`).
The store's resolved configuration is `LCfg`; `mkLocalStoreCfg` models the
constructor (resolving options against the module-level `LocalStoreConfig`
defaults with JavaScript truthiness, as the source does). -/

/-- Resolved per-store configuration of the synchronous store. -/
structure LCfg where
  storeName : String
  defaultExpiryMs : Int
  gcIntervalMs : Int

/-- The module-level `LocalStoreConfig` global defaults object. -/
structure LSGlobalConfig where
  storeName : String
  expiryMs : Int
  gcIntervalMs : Int

/-- Constructor options of `LocalStore` / `createLocalStore`. -/
structure LSOptions where
  defaultExpiryMs : Option DurOrMs := none
  gcIntervalMs : Option DurOrMs := none

/-- The `LocalStore` constructor: `options?.defaultExpiryMs ?
durationOrMsToMs(options.defaultExpiryMs) : LocalStoreConfig.expiryMs`, and
likewise for the GC interval. -/
def mkLocalStoreCfg (g : LSGlobalConfig) (storeName : String) (opts : LSOptions) : LCfg :=
  { storeName := storeName
    defaultExpiryMs :=
      match opts.defaultExpiryMs with
      | some d => if durTruthy d then durationOrMsToMs d else g.expiryMs
      | none => g.expiryMs
    gcIntervalMs :=
      match opts.gcIntervalMs with
      | some d => if durTruthy d then durationOrMsToMs d else g.gcIntervalMs
      | none => g.gcIntervalMs }

/-- The `keyPrefix` field: `storeName + ":"`. -/
def keyPref (c : LCfg) : String := c.storeName ++ ":"

/-- The `gcMsStorageKey` field of the synchronous store. -/
def gcMsStorageKey (c : LCfg) : String := "__localStore:lastGcMs:" ++ c.storeName

/-- The `lastGcMs` getter: read the watermark cell, `Number(...)` it, with
missing / empty / non-numeric text collapsing to 0. The cell is only ever
written as `String(ms)`, whose text coincides with the JSON document of the
integer. -/
def getLastGcMs (c : LCfg) (ls : LS) : Int :=
  match lsGetItem ls (gcMsStorageKey c) with
  | some (.json (.jnum n)) => n
  | _ => 0

/-- The `lastGcMs` setter: `setItem(gcMsStorageKey, String(ms))`. -/
def setLastGcMs (c : LCfg) (ls : LS) (ms : Int) : LS :=
  lsSetItem ls (gcMsStorageKey c) (.json (.jnum ms))

/-- Source `validateStoredObject` of `src/localStore.ts`: absent when the
input is falsy, not object-typed, has undefined `value`, has non-numeric
`storedMs` or `expiryMs`, or is expired (`Date.now() >= expiryMs`); otherwise
the input itself. -/
def validateStoredObject (now : Int) (v : JsVal) : Option JsVal :=
  if isFalsy v then none
  else if !isObjLike v then none
  else if (jprop v "value").isNone then none
  else if !isNumOpt (jprop v "storedMs") then none
  else
    match jprop v "expiryMs" with
    | some (.jnum e) => if now ≥ e then none else some v
    | _ => none

/-- The store's `delete(key)` for a single key: removes `keyPrefix + key`. -/
def deleteOneA (c : LCfg) (ls : LS) (key : String) : LS :=
  lsRemoveItem ls (keyPref c ++ key)

/-- The store's `delete(keys)` for an array of keys. -/
def deleteManyA (c : LCfg) (ls : LS) (keys : List String) : LS :=
  keys.foldl (fun ls k => deleteOneA c ls k) ls

/-- Source `getStoredObject`, parameterized by the opportunistic `gc` action
`gcF` it fires after deleting an invalid or expired entry. Note that on the
invalid/expired paths the source calls `this.delete(k)` with `k` already the
full storage key `keyPrefix + key`, and `delete` prefixes again. -/
def getStoredObjectA (gcF : Int → LS → LS) (c : LCfg) (now : Int) (ls : LS)
    (key : String) : Option JsVal × LS :=
  let k := keyPref c ++ key
  match lsGetItem ls k with
  | none => (none, ls)
  | some text =>
    if textFalsy text then (none, ls)
    else
      match jsonParse text with
      | none => (none, gcF now (deleteOneA c ls k))
      | some parsed =>
        match validateStoredObject now parsed with
        | none => (none, gcF now (deleteOneA c ls k))
        | some o => (some o, ls)

/-- Source `get`: `getStoredObject(key)?.value`. -/
def getA (gcF : Int → LS → LS) (c : LCfg) (now : Int) (ls : LS) (key : String) :
    Option JsVal × LS :=
  let r := getStoredObjectA gcF c now ls key
  (r.1.bind (fun o => jprop o "value"), r.2)

/-- The envelope written by `set`: `{ value, storedMs, expiryMs }`, with an
undefined `value` dropped by `JSON.stringify`. -/
def storedFields (value : Option JsVal) (s e : Int) : List (String × JsVal) :=
  (match value with
   | none => []
   | some v => [("value", v)]) ++ [("storedMs", .jnum s), ("expiryMs", .jnum e)]

/-- Source `set`: write the serialized envelope under `keyPrefix + key`, fire
the opportunistic `gc`, and return the value passed in. -/
def setA (gcF : Int → LS → LS) (c : LCfg) (now : Int) (ls : LS) (key : String)
    (value : Option JsVal) (delta : Option DurOrMs) : Option JsVal × LS :=
  let d := durationOrMsToMs (delta.getD (.ms c.defaultExpiryMs))
  let ls1 := lsSetItem ls (keyPref c ++ key) (.json (.jobj (storedFields value now (now + d))))
  (value, gcF now ls1)

/-- Source `forEach`: scan the medium's key snapshot, filter by prefix, read
each entry through `getStoredObject` (which deletes invalid entries inline and
may fire `gc`), and invoke the callback on valid entries. The callback `cb`
threads an accumulator and may mutate the medium. -/
def forEachA (gcF : Int → LS → LS) (c : LCfg) (now : Int) {A : Type}
    (cb : A → LS → String → Option JsVal → Int → Int → A × LS) (init : A)
    (ls : LS) : A × LS :=
  (lsKeys ls).foldl
    (fun acc k =>
      if strStartsWith k (keyPref c) then
        let key := strDropN k (keyPref c).length
        match getStoredObjectA gcF c now acc.2 key with
        | (none, ls2) => (acc.1, ls2)
        | (some o, ls2) => cb acc.1 ls2 key (jprop o "value") (jexpiry o) (jstored o)
      else acc)
    (init, ls)

/-- Source `size`: count of `forEach` callback invocations. -/
def sizeA (gcF : Int → LS → LS) (c : LCfg) (now : Int) (ls : LS) : Nat × LS :=
  forEachA gcF c now (fun n ls _ _ _ _ => (n + 1, ls)) 0 ls

/-- JavaScript `Map.prototype.set` on an insertion-ordered association list. -/
def mapPut {B : Type} : List (String × B) → String → B → List (String × B)
  | [], k, v => [(k, v)]
  | (k1, v1) :: rest, k, v =>
      if k1 = k then (k, v) :: rest else (k1, v1) :: mapPut rest k v

/-- Source `asMap`: dump of `forEach` into a map of key to envelope parts. -/
def asMapA (gcF : Int → LS → LS) (c : LCfg) (now : Int) (ls : LS) :
    List (String × (Option JsVal × Int × Int)) × LS :=
  forEachA gcF c now (fun m ls k v e s => (mapPut m k (v, e, s), ls)) [] ls

/-- Source `clear`: remove every key under the namespace prefix, bypassing
liveness checks. -/
def clearA (c : LCfg) (ls : LS) : LS :=
  (lsKeys ls).foldl
    (fun ls k => if strStartsWith k (keyPref c) then lsRemoveItem ls k else ls) ls

/-- The sweep callback of `gcNow`: delete the entry when
`Date.now() >= expiryMs`, counting deletions. -/
def gcSweepCb (c : LCfg) (now : Int) :
    Nat → LS → String → Option JsVal → Int → Int → Nat × LS :=
  fun n ls key _v e _s => if now ≥ e then (n + 1, deleteOneA c ls key) else (n, ls)

/-- Source `gcNow`: write the watermark to now, sweep via `forEach` deleting
every callback-visible entry with `Date.now() >= expiryMs`, then write the
watermark again at the end (`nowEnd`). -/
def gcNowA (gcF : Int → LS → LS) (c : LCfg) (now nowEnd : Int) (ls : LS) : LS :=
  let ls1 := setLastGcMs c ls now
  let r := forEachA gcF c now (gcSweepCb c now) 0 ls1
  setLastGcMs c r.2 nowEnd

/-- Source `gc`: seed the watermark when absent, return when not due,
otherwise run `gcNow`. -/
def gcA (gcF : Int → LS → LS) (c : LCfg) (now : Int) (ls : LS) : LS :=
  let last := getLastGcMs c ls
  if last = 0 then setLastGcMs c ls now
  else if now < last + c.gcIntervalMs then ls
  else gcNowA gcF c now now ls

/-- Ties the `gc` recursion knot with fuel: each nested opportunistic `gc`
call (fired from inside `getStoredObject` during a sweep) consumes one unit;
with exhausted fuel the nested call is a no-op. Any positive GC interval
makes nested calls no-ops after depth one. -/
def gcFuelL (c : LCfg) : Nat → Int → LS → LS
  | 0 => fun _ ls => ls
  | fuel + 1 => fun now ls => gcA (gcFuelL c fuel) c now ls

/-! Public operations of class `LocalStore`, with the gc knot tied. -/

def LocalStore_set (c : LCfg) (fuel : Nat) (now : Int) (ls : LS) (key : String)
    (value : Option JsVal) (delta : Option DurOrMs) : Option JsVal × LS :=
  setA (gcFuelL c fuel) c now ls key value delta

def LocalStore_getStoredObject (c : LCfg) (fuel : Nat) (now : Int) (ls : LS)
    (key : String) : Option JsVal × LS :=
  getStoredObjectA (gcFuelL c fuel) c now ls key

def LocalStore_get (c : LCfg) (fuel : Nat) (now : Int) (ls : LS) (key : String) :
    Option JsVal × LS :=
  getA (gcFuelL c fuel) c now ls key

def LocalStore_deleteOne (c : LCfg) (ls : LS) (key : String) : LS :=
  deleteOneA c ls key

def LocalStore_deleteMany (c : LCfg) (ls : LS) (keys : List String) : LS :=
  deleteManyA c ls keys

def LocalStore_forEach (c : LCfg) (fuel : Nat) (now : Int) {A : Type}
    (cb : A → LS → String → Option JsVal → Int → Int → A × LS) (init : A)
    (ls : LS) : A × LS :=
  forEachA (gcFuelL c fuel) c now cb init ls

def LocalStore_size (c : LCfg) (fuel : Nat) (now : Int) (ls : LS) : Nat × LS :=
  sizeA (gcFuelL c fuel) c now ls

def LocalStore_clear (c : LCfg) (ls : LS) : LS := clearA c ls

def LocalStore_asMap (c : LCfg) (fuel : Nat) (now : Int) (ls : LS) :
    List (String × (Option JsVal × Int × Int)) × LS :=
  asMapA (gcFuelL c fuel) c now ls

def LocalStore_gc (c : LCfg) (fuel : Nat) (now : Int) (ls : LS) : LS :=
  gcA (gcFuelL c fuel) c now ls

def LocalStore_gcNow (c : LCfg) (fuel : Nat) (now nowEnd : Int) (ls : LS) : LS :=
  gcNowA (gcFuelL c fuel) c now nowEnd ls

/-! The durable store engine (`src/kvStore.ts`, `createKvStore`). Records are
structured objects keyed by their `key` property (the object store's key
path); the GC watermark lives in the synchronous medium. Every modelled
operation is the success path of its transaction; connection failure is
modelled separately by `getOrCreateDb`. -/

/-- Resolved per-store configuration of the durable store. -/
structure KCfg where
  dbName : String
  dbVersion : Int
  storeName : String
  defaultExpiryMs : Int
  gcIntervalMs : Int

/-- The `gcMsStorageKey` of the durable store (stored in localStorage). -/
def kvGcMsStorageKey (c : KCfg) : String :=
  "__kvStore:lastGcMs:" ++ c.dbName ++ ":v" ++ toString c.dbVersion ++ ":" ++ c.storeName

/-- State of a durable store: the object store's records (association list
keyed by record key, insertion order) plus the synchronous medium holding the
watermark. -/
structure KvState where
  db : List (String × JsVal)
  ls : LS

/-- Source `validateStoredObject` of `src/kvStore.ts`: like the synchronous
validator but additionally requiring a string `key` property (the record's
primary key). -/
def validateKvStoredObject (now : Int) (v : JsVal) : Option JsVal :=
  if isFalsy v then none
  else if !isObjLike v then none
  else if !isStrOpt (jprop v "key") then none
  else if (jprop v "value").isNone then none
  else if !isNumOpt (jprop v "storedMs") then none
  else
    match jprop v "expiryMs" with
    | some (.jnum e) => if now ≥ e then none else some v
    | _ => none

/-- The object store's `get(key)`. -/
def kvLookup : List (String × JsVal) → String → Option JsVal
  | [], _ => none
  | (k1, v) :: rest, k => if k1 = k then some v else kvLookup rest k

/-- The object store's `put(record)` keyed by the record's key path. -/
def kvPut : List (String × JsVal) → String → JsVal → List (String × JsVal)
  | [], k, v => [(k, v)]
  | (k1, v1) :: rest, k, v =>
      if k1 = k then (k, v) :: rest else (k1, v1) :: kvPut rest k v

/-- The object store's `delete(key)`. -/
def kvDeleteOne : List (String × JsVal) → String → List (String × JsVal)
  | [], _ => []
  | (k1, v1) :: rest, k =>
      if k1 = k then kvDeleteOne rest k else (k1, v1) :: kvDeleteOne rest k

/-- The store's `delete(keys)` with an array of keys (one transaction). -/
def kvDeleteMany (db : List (String × JsVal)) (keys : List String) :
    List (String × JsVal) :=
  keys.foldl (fun db k => kvDeleteOne db k) db

/-- The watermark read `getLastGcMs` of the durable store. -/
def kvGetLastGcMs (c : KCfg) (ls : LS) : Int :=
  match lsGetItem ls (kvGcMsStorageKey c) with
  | some (.json (.jnum n)) => n
  | _ => 0

/-- The watermark write `setLastGcMs` of the durable store. -/
def kvSetLastGcMs (c : KCfg) (ls : LS) (ms : Int) : LS :=
  lsSetItem ls (kvGcMsStorageKey c) (.json (.jnum ms))

/-- Source `forEach` of the durable store: cursor over all records, skipping
falsy cursor keys, validating each record inline, and invoking the callback
only on valid records. The cursor neither deletes nor fires `gc`; the
callback here is a pure accumulator (the store's own uses only accumulate). -/
def kvForEachA (now : Int) {A : Type}
    (cb : A → String → Option JsVal → Int → Int → A) (init : A)
    (db : List (String × JsVal)) : A :=
  db.foldl
    (fun a p =>
      if p.1 = "" then a
      else
        match validateKvStoredObject now p.2 with
        | none => a
        | some o => cb a p.1 (jprop o "value") (jexpiry o) (jstored o))
    init

/-- Source `gcNow` of the durable store: write the watermark, collect via
`forEach` every callback-visible key with undefined value or
`Date.now() >= expiryMs`, batch-delete the collected keys if any, then write
the watermark again (`nowEnd`). -/
def kvGcNow (c : KCfg) (now nowEnd : Int) (st : KvState) : KvState :=
  let ls1 := kvSetLastGcMs c st.ls now
  let keysToDelete := kvForEachA now
    (fun (ks : List String) key v e _s =>
      if v.isNone || now ≥ e then ks ++ [key] else ks) [] st.db
  let db1 := if keysToDelete.isEmpty then st.db else kvDeleteMany st.db keysToDelete
  { db := db1, ls := kvSetLastGcMs c ls1 nowEnd }

/-- Source `gc` of the durable store: seed the watermark when absent, return
when not due, otherwise run `gcNow`. -/
def kvGc (c : KCfg) (now : Int) (st : KvState) : KvState :=
  let last := kvGetLastGcMs c st.ls
  if last = 0 then { st with ls := kvSetLastGcMs c st.ls now }
  else if now < last + c.gcIntervalMs then st
  else kvGcNow c now now st

/-- The record written by the durable `set`:
`{ key, value, storedMs, expiryMs }`. -/
def kvStoredFields (key : String) (value : Option JsVal) (s e : Int) :
    List (String × JsVal) :=
  ("key", .jstr key) ::
    ((match value with
      | none => []
      | some v => [("value", v)]) ++ [("storedMs", .jnum s), ("expiryMs", .jnum e)])

/-- Source `set` of the durable store: `put` the record, resolve with the
original value, then fire the opportunistic `gc` (not awaited). -/
def kvSet (c : KCfg) (now : Int) (st : KvState) (key : String)
    (value : Option JsVal) (delta : Option DurOrMs) : Option JsVal × KvState :=
  let d := durationOrMsToMs (delta.getD (.ms c.defaultExpiryMs))
  let record := JsVal.jobj (kvStoredFields key value now (now + d))
  let st1 : KvState := { st with db := kvPut st.db key record }
  (value, kvGc c now st1)

/-- Source `getStoredObject` of the durable store: read the record by key;
missing or falsy result is absent; an invalid or expired record is deleted
(by its proper key) and `gc` fired; otherwise the record is returned. -/
def kvGetStoredObject (c : KCfg) (now : Int) (st : KvState) (key : String) :
    Option JsVal × KvState :=
  match kvLookup st.db key with
  | none => (none, st)
  | some record =>
    if isFalsy record then (none, st)
    else
      match validateKvStoredObject now record with
      | none =>
        let st1 : KvState := { st with db := kvDeleteOne st.db key }
        (none, kvGc c now st1)
      | some o => (some o, st)

/-- Source `get` of the durable store: `(await getStoredObject(key))?.value`. -/
def kvGet (c : KCfg) (now : Int) (st : KvState) (key : String) :
    Option JsVal × KvState :=
  let r := kvGetStoredObject c now st key
  (r.1.bind (fun o => jprop o "value"), r.2)

/-- Source `size` of the durable store: count of callback invocations. -/
def kvSize (now : Int) (db : List (String × JsVal)) : Nat :=
  kvForEachA now (fun n _ _ _ _ => n + 1) 0 db

/-- Source `getOrCreateDb` connection memoization: `memo` is the store's `db`
field, `attempt` the outcome of `indexedDB.open` for this call. The handle is
assigned only when the open succeeds; a rejected open leaves the memo unset. -/
def getOrCreateDb (memo : Option Nat) (attempt : Except String Nat) :
    Except String Nat × Option Nat :=
  match memo with
  | some db => (.ok db, some db)
  | none =>
    match attempt with
    | .ok db => (.ok db, some db)
    | .error e => (.error e, none)

/-! The factory-based synchronous store (`createLocalStore` in the unnamed
source part): an independent translation of that file, used to compare
against the class-based `LocalStore` embedding above. -/

/-- The `createLocalStore` closure-captured configuration:
`options?.defaultExpiryMs ? durationOrMsToMs(...) : LocalStoreConfig.expiryMs`
and likewise for the GC interval. -/
def mkCreateLocalStoreCfg (g : LSGlobalConfig) (storeName : String)
    (opts : LSOptions) : LCfg :=
  { storeName := storeName
    defaultExpiryMs :=
      match opts.defaultExpiryMs with
      | some d => if durTruthy d then durationOrMsToMs d else g.expiryMs
      | none => g.expiryMs
    gcIntervalMs :=
      match opts.gcIntervalMs with
      | some d => if durTruthy d then durationOrMsToMs d else g.gcIntervalMs
      | none => g.gcIntervalMs }

/-- Factory `keyPrefix`: `storeName + ":"`. -/
def fKeyPref (c : LCfg) : String := c.storeName ++ ":"

/-- Factory `gcMsStorageKey`. -/
def fGcMsStorageKey (c : LCfg) : String := "__localStore:lastGcMs:" ++ c.storeName

/-- Factory `getLastGcMs`. -/
def fGetLastGcMs (c : LCfg) (ls : LS) : Int :=
  match lsGetItem ls (fGcMsStorageKey c) with
  | some (.json (.jnum n)) => n
  | _ => 0

/-- Factory `setLastGcMs`. -/
def fSetLastGcMs (c : LCfg) (ls : LS) (ms : Int) : LS :=
  lsSetItem ls (fGcMsStorageKey c) (.json (.jnum ms))

/-- Factory-file `validateStoredObject` (same checks as the class file). -/
def fValidateStoredObject (now : Int) (v : JsVal) : Option JsVal :=
  if isFalsy v then none
  else if !isObjLike v then none
  else if (jprop v "value").isNone then none
  else if !isNumOpt (jprop v "storedMs") then none
  else
    match jprop v "expiryMs" with
    | some (.jnum e) => if now ≥ e then none else some v
    | _ => none

/-- Factory `delete(key)` for a single key. -/
def fDeleteOneA (c : LCfg) (ls : LS) (key : String) : LS :=
  lsRemoveItem ls (fKeyPref c ++ key)

/-- Factory `delete(keys)` for an array of keys. -/
def fDeleteManyA (c : LCfg) (ls : LS) (keys : List String) : LS :=
  keys.foldl (fun ls k => fDeleteOneA c ls k) ls

/-- Factory `getStoredObject` (with the same already-prefixed `obj.delete(k)`
call on the invalid/expired paths). -/
def fGetStoredObjectA (gcF : Int → LS → LS) (c : LCfg) (now : Int) (ls : LS)
    (key : String) : Option JsVal × LS :=
  let k := fKeyPref c ++ key
  match lsGetItem ls k with
  | none => (none, ls)
  | some text =>
    if textFalsy text then (none, ls)
    else
      match jsonParse text with
      | none => (none, gcF now (fDeleteOneA c ls k))
      | some parsed =>
        match fValidateStoredObject now parsed with
        | none => (none, gcF now (fDeleteOneA c ls k))
        | some o => (some o, ls)

/-- Factory `get`. -/
def fGetA (gcF : Int → LS → LS) (c : LCfg) (now : Int) (ls : LS) (key : String) :
    Option JsVal × LS :=
  let r := fGetStoredObjectA gcF c now ls key
  (r.1.bind (fun o => jprop o "value"), r.2)

/-- Factory `set`: `expiryDeltaMs ?? defaultExpiryMs`. -/
def fSetA (gcF : Int → LS → LS) (c : LCfg) (now : Int) (ls : LS) (key : String)
    (value : Option JsVal) (delta : Option DurOrMs) : Option JsVal × LS :=
  let d := durationOrMsToMs (delta.getD (.ms c.defaultExpiryMs))
  let ls1 := lsSetItem ls (fKeyPref c ++ key) (.json (.jobj (storedFields value now (now + d))))
  (value, gcF now ls1)

/-- Factory `forEach`. -/
def fForEachA (gcF : Int → LS → LS) (c : LCfg) (now : Int) {A : Type}
    (cb : A → LS → String → Option JsVal → Int → Int → A × LS) (init : A)
    (ls : LS) : A × LS :=
  (lsKeys ls).foldl
    (fun acc k =>
      if strStartsWith k (fKeyPref c) then
        let key := strDropN k (fKeyPref c).length
        match fGetStoredObjectA gcF c now acc.2 key with
        | (none, ls2) => (acc.1, ls2)
        | (some o, ls2) => cb acc.1 ls2 key (jprop o "value") (jexpiry o) (jstored o)
      else acc)
    (init, ls)

/-- Factory `size`. -/
def fSizeA (gcF : Int → LS → LS) (c : LCfg) (now : Int) (ls : LS) : Nat × LS :=
  fForEachA gcF c now (fun n ls _ _ _ _ => (n + 1, ls)) 0 ls

/-- Factory `asMap`. -/
def fAsMapA (gcF : Int → LS → LS) (c : LCfg) (now : Int) (ls : LS) :
    List (String × (Option JsVal × Int × Int)) × LS :=
  fForEachA gcF c now (fun m ls k v e s => (mapPut m k (v, e, s), ls)) [] ls

/-- Factory `clear`. -/
def fClearA (c : LCfg) (ls : LS) : LS :=
  (lsKeys ls).foldl
    (fun ls k => if strStartsWith k (fKeyPref c) then lsRemoveItem ls k else ls) ls

/-- Factory sweep callback of `gcNow`. -/
def fGcSweepCb (c : LCfg) (now : Int) :
    Nat → LS → String → Option JsVal → Int → Int → Nat × LS :=
  fun n ls key _v e _s => if now ≥ e then (n + 1, fDeleteOneA c ls key) else (n, ls)

/-- Factory `gcNow`. -/
def fGcNowA (gcF : Int → LS → LS) (c : LCfg) (now nowEnd : Int) (ls : LS) : LS :=
  let ls1 := fSetLastGcMs c ls now
  let r := fForEachA gcF c now (fGcSweepCb c now) 0 ls1
  fSetLastGcMs c r.2 nowEnd

/-- Factory `gc`. -/
def fGcA (gcF : Int → LS → LS) (c : LCfg) (now : Int) (ls : LS) : LS :=
  let last := fGetLastGcMs c ls
  if last = 0 then fSetLastGcMs c ls now
  else if now < last + c.gcIntervalMs then ls
  else fGcNowA gcF c now now ls

/-- Factory gc recursion knot with fuel. -/
def fGcFuel (c : LCfg) : Nat → Int → LS → LS
  | 0 => fun _ ls => ls
  | fuel + 1 => fun now ls => fGcA (fGcFuel c fuel) c now ls

/-! Public operations of the factory store. -/

def createLocalStore_set (c : LCfg) (fuel : Nat) (now : Int) (ls : LS)
    (key : String) (value : Option JsVal) (delta : Option DurOrMs) :
    Option JsVal × LS :=
  fSetA (fGcFuel c fuel) c now ls key value delta

def createLocalStore_getStoredObject (c : LCfg) (fuel : Nat) (now : Int)
    (ls : LS) (key : String) : Option JsVal × LS :=
  fGetStoredObjectA (fGcFuel c fuel) c now ls key

def createLocalStore_get (c : LCfg) (fuel : Nat) (now : Int) (ls : LS)
    (key : String) : Option JsVal × LS :=
  fGetA (fGcFuel c fuel) c now ls key

def createLocalStore_deleteOne (c : LCfg) (ls : LS) (key : String) : LS :=
  fDeleteOneA c ls key

def createLocalStore_deleteMany (c : LCfg) (ls : LS) (keys : List String) : LS :=
  fDeleteManyA c ls keys

def createLocalStore_forEach (c : LCfg) (fuel : Nat) (now : Int) {A : Type}
    (cb : A → LS → String → Option JsVal → Int → Int → A × LS) (init : A)
    (ls : LS) : A × LS :=
  fForEachA (fGcFuel c fuel) c now cb init ls

def createLocalStore_size (c : LCfg) (fuel : Nat) (now : Int) (ls : LS) :
    Nat × LS :=
  fSizeA (fGcFuel c fuel) c now ls

def createLocalStore_clear (c : LCfg) (ls : LS) : LS := fClearA c ls

def createLocalStore_asMap (c : LCfg) (fuel : Nat) (now : Int) (ls : LS) :
    List (String × (Option JsVal × Int × Int)) × LS :=
  fAsMapA (fGcFuel c fuel) c now ls

def createLocalStore_gc (c : LCfg) (fuel : Nat) (now : Int) (ls : LS) : LS :=
  fGcA (fGcFuel c fuel) c now ls

def createLocalStore_gcNow (c : LCfg) (fuel : Nat) (now nowEnd : Int) (ls : LS) : LS :=
  fGcNowA (fGcFuel c fuel) c now nowEnd ls

/-! Instrumented (event-trace) variants of the GC path, recording the ordered
medium actions an execution performs. These mirror the plain definitions
above; consistency with them is proved in the theorems that use them. -/

/-- An action on the synchronous medium. -/
inductive LsEv where
  | write (k : String) (t : LSText)
  | remove (k : String)

/-- Instrumented `getStoredObject` (events of the invalid/expired delete and
of the nested opportunistic `gc`). -/
def getStoredObjectT (gcFT : Int → LS → LS × List LsEv) (c : LCfg) (now : Int)
    (ls : LS) (key : String) : Option JsVal × LS × List LsEv :=
  let k := keyPref c ++ key
  match lsGetItem ls k with
  | none => (none, ls, [])
  | some text =>
    if textFalsy text then (none, ls, [])
    else
      match jsonParse text with
      | none =>
        let r := gcFT now (deleteOneA c ls k)
        (none, r.1, .remove (keyPref c ++ k) :: r.2)
      | some parsed =>
        match validateStoredObject now parsed with
        | none =>
          let r := gcFT now (deleteOneA c ls k)
          (none, r.1, .remove (keyPref c ++ k) :: r.2)
        | some o => (some o, ls, [])

/-- Instrumented sweep of `gcNow` (the `forEach` call with its deletion
callback inlined). -/
def gcSweepT (gcFT : Int → LS → LS × List LsEv) (c : LCfg) (now : Int)
    (ls : LS) : LS × List LsEv :=
  (lsKeys ls).foldl
    (fun acc k =>
      if strStartsWith k (keyPref c) then
        let key := strDropN k (keyPref c).length
        let r := getStoredObjectT gcFT c now acc.1 key
        match r.1 with
        | none => (r.2.1, acc.2 ++ r.2.2)
        | some o =>
          if now ≥ jexpiry o then
            (deleteOneA c r.2.1 key, acc.2 ++ (r.2.2 ++ [.remove (keyPref c ++ key)]))
          else (r.2.1, acc.2 ++ r.2.2)
      else acc)
    (ls, [])

/-- Instrumented `gcNow`: watermark write, sweep, watermark write. -/
def gcNowT (gcFT : Int → LS → LS × List LsEv) (c : LCfg) (now nowEnd : Int)
    (ls : LS) : LS × List LsEv :=
  let r := gcSweepT gcFT c now (setLastGcMs c ls now)
  (setLastGcMs c r.1 nowEnd,
    .write (gcMsStorageKey c) (.json (.jnum now)) ::
      (r.2 ++ [.write (gcMsStorageKey c) (.json (.jnum nowEnd))]))

/-- Instrumented `gc`. -/
def gcAT (gcFT : Int → LS → LS × List LsEv) (c : LCfg) (now : Int) (ls : LS) :
    LS × List LsEv :=
  let last := getLastGcMs c ls
  if last = 0 then
    (setLastGcMs c ls now, [.write (gcMsStorageKey c) (.json (.jnum now))])
  else if now < last + c.gcIntervalMs then (ls, [])
  else gcNowT gcFT c now now ls

/-- Instrumented gc knot with fuel. -/
def gcFuelT (c : LCfg) : Nat → Int → LS → LS × List LsEv
  | 0 => fun _ ls => (ls, [])
  | fuel + 1 => fun now ls => gcAT (gcFuelT c fuel) c now ls

/-- An action of the durable store path. -/
inductive KvEv where
  | put (k : String) (record : JsVal)
  | del (ks : List String)
  | resolve (v : Option JsVal)
  | wmWrite (ms : Int)

/-- Instrumented durable `gcNow`. -/
def kvGcNowT (c : KCfg) (now nowEnd : Int) (st : KvState) : KvState × List KvEv :=
  let ls1 := kvSetLastGcMs c st.ls now
  let keysToDelete := kvForEachA now
    (fun (ks : List String) key v e _s =>
      if v.isNone || now ≥ e then ks ++ [key] else ks) [] st.db
  let db1 := if keysToDelete.isEmpty then st.db else kvDeleteMany st.db keysToDelete
  ({ db := db1, ls := kvSetLastGcMs c ls1 nowEnd },
    .wmWrite now ::
      ((if keysToDelete.isEmpty then [] else [.del keysToDelete]) ++ [.wmWrite nowEnd]))

/-- Instrumented durable `gc`. -/
def kvGcT (c : KCfg) (now : Int) (st : KvState) : KvState × List KvEv :=
  let last := kvGetLastGcMs c st.ls
  if last = 0 then ({ st with ls := kvSetLastGcMs c st.ls now }, [.wmWrite now])
  else if now < last + c.gcIntervalMs then (st, [])
  else kvGcNowT c now now st

/-- Instrumented durable `set`: the `put` request, the resolution of the
pending result with the original value, then the fire-and-forget `gc`. -/
def kvSetT (c : KCfg) (now : Int) (st : KvState) (key : String)
    (value : Option JsVal) (delta : Option DurOrMs) :
    Option JsVal × KvState × List KvEv :=
  let d := durationOrMsToMs (delta.getD (.ms c.defaultExpiryMs))
  let record := JsVal.jobj (kvStoredFields key value now (now + d))
  let st1 : KvState := { st with db := kvPut st.db key record }
  let r := kvGcT c now st1
  (value, r.1, .put key record :: .resolve value :: r.2)

/-! Operation-sequence language over the synchronous store, used to compare
the class-based and the factory-based implementations observably. -/

/-- One public operation, with the `Date.now()` values it observes. -/
inductive SOp where
  | opSet (key : String) (value : Option JsVal) (delta : Option DurOrMs) (now : Int)
  | opGet (key : String) (now : Int)
  | opGetStoredObject (key : String) (now : Int)
  | opDeleteOne (key : String)
  | opDeleteMany (keys : List String)
  | opForEach (now : Int)
  | opSize (now : Int)
  | opClear
  | opAsMap (now : Int)
  | opGc (now : Int)
  | opGcNow (now nowEnd : Int)

/-- Observable result of one operation (`opForEach` observes the ordered
callback invocations). -/
inductive SOut where
  | outVal (v : Option JsVal)
  | outObj (o : Option JsVal)
  | outNum (n : Nat)
  | outList (l : List (String × Option JsVal × Int × Int))
  | outUnit

/-- One step of the class-based store. -/
def runClassOp (c : LCfg) (fuel : Nat) (ls : LS) : SOp → SOut × LS
  | .opSet key v d now =>
    let r := LocalStore_set c fuel now ls key v d
    (.outVal r.1, r.2)
  | .opGet key now =>
    let r := LocalStore_get c fuel now ls key
    (.outVal r.1, r.2)
  | .opGetStoredObject key now =>
    let r := LocalStore_getStoredObject c fuel now ls key
    (.outObj r.1, r.2)
  | .opDeleteOne key => (.outUnit, LocalStore_deleteOne c ls key)
  | .opDeleteMany keys => (.outUnit, LocalStore_deleteMany c ls keys)
  | .opForEach now =>
    let r := LocalStore_forEach c fuel now
      (fun l ls k v e s => (l ++ [(k, v, e, s)], ls)) [] ls
    (.outList r.1, r.2)
  | .opSize now =>
    let r := LocalStore_size c fuel now ls
    (.outNum r.1, r.2)
  | .opClear => (.outUnit, LocalStore_clear c ls)
  | .opAsMap now =>
    let r := LocalStore_asMap c fuel now ls
    (.outList r.1, r.2)
  | .opGc now => (.outUnit, LocalStore_gc c fuel now ls)
  | .opGcNow now nowEnd => (.outUnit, LocalStore_gcNow c fuel now nowEnd ls)

/-- Run a sequence of operations on the class-based store. -/
def runClass (c : LCfg) (fuel : Nat) : List SOp → LS → List SOut × LS
  | [], ls => ([], ls)
  | op :: ops, ls =>
    let r := runClassOp c fuel ls op
    let rest := runClass c fuel ops r.2
    (r.1 :: rest.1, rest.2)

/-- One step of the factory-based store. -/
def runFactoryOp (c : LCfg) (fuel : Nat) (ls : LS) : SOp → SOut × LS
  | .opSet key v d now =>
    let r := createLocalStore_set c fuel now ls key v d
    (.outVal r.1, r.2)
  | .opGet key now =>
    let r := createLocalStore_get c fuel now ls key
    (.outVal r.1, r.2)
  | .opGetStoredObject key now =>
    let r := createLocalStore_getStoredObject c fuel now ls key
    (.outObj r.1, r.2)
  | .opDeleteOne key => (.outUnit, createLocalStore_deleteOne c ls key)
  | .opDeleteMany keys => (.outUnit, createLocalStore_deleteMany c ls keys)
  | .opForEach now =>
    let r := createLocalStore_forEach c fuel now
      (fun l ls k v e s => (l ++ [(k, v, e, s)], ls)) [] ls
    (.outList r.1, r.2)
  | .opSize now =>
    let r := createLocalStore_size c fuel now ls
    (.outNum r.1, r.2)
  | .opClear => (.outUnit, createLocalStore_clear c ls)
  | .opAsMap now =>
    let r := createLocalStore_asMap c fuel now ls
    (.outList r.1, r.2)
  | .opGc now => (.outUnit, createLocalStore_gc c fuel now ls)
  | .opGcNow now nowEnd => (.outUnit, createLocalStore_gcNow c fuel now nowEnd ls)

/-- Run a sequence of operations on the factory-based store. -/
def runFactory (c : LCfg) (fuel : Nat) : List SOp → LS → List SOut × LS
  | [], ls => ([], ls)
  | op :: ops, ls =>
    let r := runFactoryOp c fuel ls op
    let rest := runFactory c fuel ops r.2
    (r.1 :: rest.1, rest.2)

/-! Basic lemmas about the synchronous medium. -/

theorem lsGetItem_set_self (ls : LS) (k : String) (t : LSText) :
    lsGetItem (lsSetItem ls k t) k = some t := by
  induction ls with
  | nil => simp [lsSetItem, lsGetItem]
  | cons p rest ih =>
    by_cases h : p.1 = k
    · simp [lsSetItem, lsGetItem, h]
    · simp [lsSetItem, lsGetItem, h, ih]

theorem lsGetItem_set_ne (ls : LS) (k k2 : String) (t : LSText) (h : k2 ≠ k) :
    lsGetItem (lsSetItem ls k t) k2 = lsGetItem ls k2 := by
  induction ls with
  | nil => simp [lsSetItem, lsGetItem, h, Ne.symm h]
  | cons p rest ih =>
    by_cases h1 : p.1 = k
    · simp [lsSetItem, lsGetItem, h1, h, Ne.symm h]
    · by_cases h3 : p.1 = k2 <;>
        simp [lsSetItem, lsGetItem, h1, h3, h, Ne.symm h, ih]

theorem lsGetItem_remove_ne (ls : LS) (k k2 : String) (h : k2 ≠ k) :
    lsGetItem (lsRemoveItem ls k) k2 = lsGetItem ls k2 := by
  induction ls with
  | nil => simp [lsRemoveItem, lsGetItem]
  | cons p rest ih =>
    by_cases h1 : p.1 = k
    · simp [lsRemoveItem, lsGetItem, h1, h, Ne.symm h, ih]
    · by_cases h3 : p.1 = k2 <;>
        simp [lsRemoveItem, lsGetItem, h1, h3, h, Ne.symm h, ih]

theorem getLastGcMs_setLastGcMs (c : LCfg) (ls : LS) (ms : Int) :
    getLastGcMs c (setLastGcMs c ls ms) = ms := by
  simp [getLastGcMs, setLastGcMs, lsGetItem_set_self]

theorem kvGetLastGcMs_set (c : KCfg) (ls : LS) (ms : Int) :
    kvGetLastGcMs c (kvSetLastGcMs c ls ms) = ms := by
  simp [kvGetLastGcMs, kvSetLastGcMs, lsGetItem_set_self]

/-! Spec-side predicates (transcribed from the specification's words, for the
validator-characterization claim). -/

/-- Spec wording: the entry is expired when `now() >= expiryMs`. -/
def specExpired (now : Int) (v : JsVal) : Bool :=
  match jprop v "expiryMs" with
  | some (.jnum e) => decide (now ≥ e)
  | _ => false

/-- Spec wording of the absence condition of `validate(raw)`: the input is not
an object, lacks a numeric `storedMs`, lacks a numeric `expiryMs`, has
undefined `value`, or `now() >= expiryMs`. -/
def specAbsentCond (now : Int) (v : JsVal) : Bool :=
  !isObjLike v || !isNumOpt (jprop v "storedMs") || !isNumOpt (jprop v "expiryMs") ||
    (jprop v "value").isNone || specExpired now v

/-! Concrete inputs used by the counterexample and code-bug theorems. -/

/-- A well-formed but expired synchronous envelope (expiry 5). -/
def expiredSyncEntry : JsVal :=
  .jobj [("value", .jnum 1), ("storedMs", .jnum 0), ("expiryMs", .jnum 5)]

/-- A well-formed but expired durable record under key "a" (expiry 5). -/
def expiredKvRecord : JsVal :=
  .jobj [("key", .jstr "a"), ("value", .jnum 1), ("storedMs", .jnum 0), ("expiryMs", .jnum 5)]

/-- A record with every envelope field valid but no `key` property. -/
def kvNoKeyRecord : JsVal :=
  .jobj [("value", .jnum 1), ("storedMs", .jnum 0), ("expiryMs", .jnum 10)]

/-- Demo synchronous store: name "s", default expiry 100, GC interval 1000. -/
def demoLCfg : LCfg := ⟨"s", 100, 1000⟩

/-- Demo synchronous medium holding one expired entry under "s:a". -/
def demoLS : LS := [("s:a", .json expiredSyncEntry)]

/-- Demo durable store configuration. -/
def demoKCfg : KCfg := ⟨"db", 1, "st", 100, 1000⟩

/-- Demo durable state holding one expired record under "a". -/
def demoKvSt : KvState := ⟨[("a", expiredKvRecord)], []⟩

/-- C1. Reading an expired key returns absent in both stores, and the claim
further says the backing record is physically removed. The durable store does
remove its record, but the synchronous store's `getStoredObject` passes the
already-prefixed storage key to `delete`, which prefixes again, so the
localStorage entry under `keyPrefix + key` survives the read: at time 10 the
entry under "s:a" (expired at 5) is still present after `getStoredObject("a")`
returned absent. -/
theorem expiredRead_sync_record_remains :
    (LocalStore_getStoredObject demoLCfg 1 10 demoLS "a").1 = none
    ∧ lsGetItem (LocalStore_getStoredObject demoLCfg 1 10 demoLS "a").2 "s:a"
        = some (.json expiredSyncEntry)
    ∧ (kvGetStoredObject demoKCfg 10 demoKvSt "a").1 = none
    ∧ kvLookup (kvGetStoredObject demoKCfg 10 demoKvSt "a").2.db "a" = none := by
  refine ⟨rfl, rfl, rfl, rfl⟩

/-- C2. The claim says `gcNow()` deletes every expired entry's record. In both
engines `forEach` validates each entry inline and skips expired ones before
the sweep callback can see them (and the synchronous inline delete targets a
doubly-prefixed key), so a sweep at time 10 leaves the expired record (expiry
5) physically present in each backing medium. -/
theorem gcNow_leaves_expired_records :
    lsGetItem (LocalStore_gcNow demoLCfg 1 10 10 demoLS) "s:a"
      = some (.json expiredSyncEntry)
    ∧ (kvGcNow demoKCfg 10 10 demoKvSt).db = [("a", expiredKvRecord)]
    ∧ validateStoredObject 10 expiredSyncEntry = none
    ∧ validateKvStoredObject 10 expiredKvRecord = none := by
  refine ⟨rfl, rfl, rfl, rfl⟩

/-- C4 counterexample. The durable validator also requires a string `key`
property: a record that satisfies every condition in the claim's list (it is
an object with numeric `storedMs`/`expiryMs`, a defined value, and is
unexpired at time 0) is nevertheless rejected by the durable validator, while
the claim says such an input is returned unchanged. -/
theorem kv_validator_missing_key_cex :
    validateKvStoredObject 0 kvNoKeyRecord = none
    ∧ specAbsentCond 0 kvNoKeyRecord = false
    ∧ validateStoredObject 0 kvNoKeyRecord = some kvNoKeyRecord := by
  refine ⟨rfl, rfl, rfl⟩

/-- C4 amended. The synchronous validator returns absent exactly under the
claim's listed conditions; the durable validator returns absent exactly under
those conditions or when the input lacks a string `key` property; and both
validators either return absent or return the input unchanged (they never
throw: they are total functions here). -/
theorem validator_absent_characterization :
    (∀ (now : Int) (v : JsVal),
      validateStoredObject now v = none ↔ specAbsentCond now v = true)
    ∧ (∀ (now : Int) (v : JsVal),
      validateKvStoredObject now v = none
        ↔ (specAbsentCond now v = true ∨ isStrOpt (jprop v "key") = false))
    ∧ (∀ (now : Int) (v : JsVal),
      validateStoredObject now v = none ∨ validateStoredObject now v = some v)
    ∧ (∀ (now : Int) (v : JsVal),
      validateKvStoredObject now v = none ∨ validateKvStoredObject now v = some v) := by
  refine ⟨?_, ?_, ?_, ?_⟩
  · intro now v
    cases v with
    | jnull => simp [validateStoredObject, specAbsentCond, isFalsy, isObjLike, jprop, specExpired]
    | jbool b =>
      cases b <;>
        simp [validateStoredObject, specAbsentCond, isFalsy, isObjLike, jprop, specExpired]
    | jnum n =>
      by_cases h : n = 0 <;>
        simp [validateStoredObject, specAbsentCond, isFalsy, isObjLike, jprop, specExpired, h]
    | jstr s =>
      by_cases h : s = "" <;>
        simp [validateStoredObject, specAbsentCond, isFalsy, isObjLike, jprop, specExpired, h]
    | jarr elems =>
      simp [validateStoredObject, specAbsentCond, isFalsy, isObjLike, jprop, specExpired]
    | jobj fields =>
      simp only [validateStoredObject, specAbsentCond, specExpired, isFalsy, isObjLike,
        Bool.not_true, Bool.not_false]
      rcases hv : jprop (JsVal.jobj fields) "value" with _ | w
      · rcases hs : jprop (JsVal.jobj fields) "storedMs" with _ | ws
        · simp [hv, hs, isNumOpt]
        · cases ws <;> rcases he : jprop (JsVal.jobj fields) "expiryMs" with _ | we <;>
            simp [hv, hs, he, isNumOpt]
      · rcases hs : jprop (JsVal.jobj fields) "storedMs" with _ | ws
        · simp [hv, hs, isNumOpt]
        · cases ws with
          | jnum ns =>
            rcases he : jprop (JsVal.jobj fields) "expiryMs" with _ | we
            · simp [hv, hs, he, isNumOpt]
            · cases we with
              | jnum ne =>
                by_cases hq : now ≥ ne <;> simp [hv, hs, he, isNumOpt, hq]
              | jnull => simp [hv, hs, he, isNumOpt]
              | jbool b => simp [hv, hs, he, isNumOpt]
              | jstr s => simp [hv, hs, he, isNumOpt]
              | jarr l => simp [hv, hs, he, isNumOpt]
              | jobj f2 => simp [hv, hs, he, isNumOpt]
          | jnull => simp [hv, hs, isNumOpt]
          | jbool b => simp [hv, hs, isNumOpt]
          | jstr s => simp [hv, hs, isNumOpt]
          | jarr l => simp [hv, hs, isNumOpt]
          | jobj f2 => simp [hv, hs, isNumOpt]
  · intro now v
    cases v with
    | jnull => simp [validateKvStoredObject, specAbsentCond, isFalsy, isObjLike, jprop, specExpired, isStrOpt]
    | jbool b =>
      cases b <;>
        simp [validateKvStoredObject, specAbsentCond, isFalsy, isObjLike, jprop, specExpired, isStrOpt]
    | jnum n =>
      by_cases h : n = 0 <;>
        simp [validateKvStoredObject, specAbsentCond, isFalsy, isObjLike, jprop, specExpired, h, isStrOpt]
    | jstr s =>
      by_cases h : s = "" <;>
        simp [validateKvStoredObject, specAbsentCond, isFalsy, isObjLike, jprop, specExpired, h, isStrOpt]
    | jarr elems =>
      simp [validateKvStoredObject, specAbsentCond, isFalsy, isObjLike, jprop, specExpired, isStrOpt]
    | jobj fields =>
      simp only [validateKvStoredObject, specAbsentCond, specExpired, isFalsy, isObjLike,
        Bool.not_true, Bool.not_false]
      rcases hk : jprop (JsVal.jobj fields) "key" with _ | wk
      · rcases hv : jprop (JsVal.jobj fields) "value" with _ | w <;>
          rcases hs : jprop (JsVal.jobj fields) "storedMs" with _ | ws <;>
          simp [hk, hv, hs, isNumOpt, isStrOpt]
      · cases wk with
        | jstr sk =>
          rcases hv : jprop (JsVal.jobj fields) "value" with _ | w
          · simp [hk, hv, isNumOpt, isStrOpt]
          · rcases hs : jprop (JsVal.jobj fields) "storedMs" with _ | ws
            · simp [hk, hv, hs, isNumOpt, isStrOpt]
            · cases ws with
              | jnum ns =>
                rcases he : jprop (JsVal.jobj fields) "expiryMs" with _ | we
                · simp [hk, hv, hs, he, isNumOpt, isStrOpt]
                · cases we with
                  | jnum ne =>
                    by_cases hq : now ≥ ne <;> simp [hk, hv, hs, he, isNumOpt, isStrOpt, hq]
                  | jnull => simp [hk, hv, hs, he, isNumOpt, isStrOpt]
                  | jbool b => simp [hk, hv, hs, he, isNumOpt, isStrOpt]
                  | jstr s => simp [hk, hv, hs, he, isNumOpt, isStrOpt]
                  | jarr l => simp [hk, hv, hs, he, isNumOpt, isStrOpt]
                  | jobj f2 => simp [hk, hv, hs, he, isNumOpt, isStrOpt]
              | jnull => simp [hk, hv, hs, isNumOpt, isStrOpt]
              | jbool b => simp [hk, hv, hs, isNumOpt, isStrOpt]
              | jstr s => simp [hk, hv, hs, isNumOpt, isStrOpt]
              | jarr l => simp [hk, hv, hs, isNumOpt, isStrOpt]
              | jobj f2 => simp [hk, hv, hs, isNumOpt, isStrOpt]
        | jnull => simp [hk, isNumOpt, isStrOpt]
        | jbool b => simp [hk, isNumOpt, isStrOpt]
        | jnum n => simp [hk, isNumOpt, isStrOpt]
        | jarr l => simp [hk, isNumOpt, isStrOpt]
        | jobj f2 => simp [hk, isNumOpt, isStrOpt]
  · intro now v
    unfold validateStoredObject
    split
    · exact Or.inl rfl
    · split
      · exact Or.inl rfl
      · split
        · exact Or.inl rfl
        · split
          · exact Or.inl rfl
          · split
            · split
              · exact Or.inl rfl
              · exact Or.inr rfl
            · exact Or.inl rfl
  · intro now v
    unfold validateKvStoredObject
    split
    · exact Or.inl rfl
    · split
      · exact Or.inl rfl
      · split
        · exact Or.inl rfl
        · split
          · exact Or.inl rfl
          · split
            · exact Or.inl rfl
            · split
              · split
                · exact Or.inl rfl
                · exact Or.inr rfl
              · exact Or.inl rfl

/-- C9. Connection failure handling of `getOrCreateDb`: a failed open rejects
the pending operation and leaves the memo unset; the memo is assigned only on
a successful open; once memoized it is reused; and after a failure a
subsequent call with a recovered medium succeeds. -/
theorem connection_memo_retry :
    (∀ e : String, getOrCreateDb none (.error e) = (.error e, none))
    ∧ (∀ db : Nat, getOrCreateDb none (.ok db) = (.ok db, some db))
    ∧ (∀ (db : Nat) (att : Except String Nat), getOrCreateDb (some db) att = (.ok db, some db))
    ∧ (∀ (e : String) (db : Nat),
        getOrCreateDb (getOrCreateDb none (.error e)).2 (.ok db) = (.ok db, some db)) :=
  ⟨fun _ => rfl, fun _ => rfl, fun _ _ => rfl, fun _ _ => rfl⟩

/-! String helpers for the watermark-key claim. -/

theorem strData_inj {a b : String} (h : a.data = b.data) : a = b := by
  cases a
  cases b
  exact congrArg String.mk (by simpa using h)

theorem strAppend_left_cancel {a b c : String} (h : a ++ b = a ++ c) : b = c := by
  apply strData_inj
  have hd := congrArg String.data h
  rw [String.data_append, String.data_append] at hd
  exact List.append_cancel_left hd

theorem colonFree_split :
    ∀ (a1 : List Char) (a2 x y : List Char), ':' ∉ a1 → ':' ∉ a2 →
      a1 ++ ':' :: x = a2 ++ ':' :: y → a1 = a2 ∧ x = y := by
  intro a1
  induction a1 with
  | nil =>
    intro a2 x y _ h2 h
    cases a2 with
    | nil => simpa using h
    | cons c rest =>
      simp only [List.nil_append, List.cons_append, List.cons.injEq] at h
      exact absurd (h.1 ▸ List.mem_cons_self c rest) h2
  | cons c rest ih =>
    intro a2 x y h1 h2 h
    cases a2 with
    | nil =>
      simp only [List.nil_append, List.cons_append, List.cons.injEq] at h
      exact absurd (h.1 ▸ List.mem_cons_self c rest) h1
    | cons c2 rest2 =>
      simp only [List.cons_append, List.cons.injEq] at h
      have hr := ih rest2 x y (fun hm => h1 (List.mem_cons_of_mem c hm))
        (fun hm => h2 (List.mem_cons_of_mem c2 hm)) h.2
      exact ⟨by rw [h.1, hr.1], hr.2⟩

/-- C5 counterexample. The durable store's watermark key uses the
`__kvStore:` prefix, not the `__store:` prefix the claim prescribes: at the
default identity (`KVStore`, version 1, store `kvStore`) the persisted key
differs from the claimed string. The synchronous store's key
(`__localStore:lastGcMs:<storeName>`) does not even contain a version
component. -/
theorem gc_watermark_key_format_cex :
    kvGcMsStorageKey ⟨"KVStore", 1, "kvStore", 100, 1000⟩
      = "__kvStore:lastGcMs:KVStore:v1:kvStore"
    ∧ kvGcMsStorageKey ⟨"KVStore", 1, "kvStore", 100, 1000⟩
      ≠ "__store:lastGcMs:KVStore:v1:kvStore"
    ∧ gcMsStorageKey ⟨"ts-utils", 100, 1000⟩ = "__localStore:lastGcMs:ts-utils"
    ∧ gcMsStorageKey ⟨"ts-utils", 100, 1000⟩
      ≠ "__store:lastGcMs:localStorage:v1:ts-utils" := by
  refine ⟨rfl, ?_, rfl, ?_⟩ <;> decide

/-- C5 amended. The synchronous store's watermark key is
`__localStore:lastGcMs:<storeName>` and the durable store's is
`__kvStore:lastGcMs:<dbName>:v<dbVersion>:<storeName>`; distinct synchronous
store names never share a key; distinct durable identities never share a key
provided the name components and the version rendering are colon-free; and a
synchronous watermark key never equals a durable one. -/
theorem gc_watermark_key_formats :
    (∀ c : LCfg, gcMsStorageKey c = "__localStore:lastGcMs:" ++ c.storeName)
    ∧ (∀ c : KCfg,
        kvGcMsStorageKey c
          = "__kvStore:lastGcMs:" ++ c.dbName ++ ":v" ++ toString c.dbVersion
              ++ ":" ++ c.storeName)
    ∧ (∀ c1 c2 : LCfg,
        gcMsStorageKey c1 = gcMsStorageKey c2 → c1.storeName = c2.storeName)
    ∧ (∀ c1 c2 : KCfg,
        ':' ∉ c1.dbName.data → ':' ∉ c2.dbName.data →
        ':' ∉ (toString c1.dbVersion).data → ':' ∉ (toString c2.dbVersion).data →
        kvGcMsStorageKey c1 = kvGcMsStorageKey c2 →
        c1.dbName = c2.dbName ∧ toString c1.dbVersion = toString c2.dbVersion
          ∧ c1.storeName = c2.storeName)
    ∧ (∀ (c1 : LCfg) (c2 : KCfg), gcMsStorageKey c1 ≠ kvGcMsStorageKey c2) := by
  refine ⟨fun _ => rfl, fun _ => rfl, ?_, ?_, ?_⟩
  · intro c1 c2 h
    exact strAppend_left_cancel h
  · intro c1 c2 hd1 hd2 hn1 hn2 h
    have hdata := congrArg String.data h
    simp only [kvGcMsStorageKey, String.data_append, List.append_assoc,
      List.cons_append, List.nil_append, List.cons.injEq, true_and] at hdata
    have h1 := hdata
    have h2 := colonFree_split c1.dbName.data c2.dbName.data _ _ hd1 hd2 h1
    have h4 := List.cons.inj h2.2
    have h5 := colonFree_split (toString c1.dbVersion).data (toString c2.dbVersion).data _ _
      hn1 hn2 h4.2
    exact ⟨strData_inj h2.1, strData_inj h5.1, strData_inj h5.2⟩
  · intro c1 c2 h
    have hdata := congrArg String.data h
    simp only [gcMsStorageKey, kvGcMsStorageKey, String.data_append,
      List.append_assoc, List.cons_append, List.nil_append] at hdata
    simp only [List.cons.injEq] at hdata
    exact absurd hdata.2.2.1 (by decide)

/-- C5 witness: the amended statement applied at concrete identities. -/
theorem gc_watermark_key_formats_witness :
    (⟨"a", 1, "b", 1, 1⟩ : KCfg).dbName = (⟨"a", 1, "b", 1, 1⟩ : KCfg).dbName
    ∧ gcMsStorageKey ⟨"x", 1, 1⟩ ≠ kvGcMsStorageKey ⟨"a", 1, "b", 1, 1⟩ := by
  refine ⟨?_, gc_watermark_key_formats.2.2.2.2 ⟨"x", 1, 1⟩ ⟨"a", 1, "b", 1, 1⟩⟩
  exact (gc_watermark_key_formats.2.2.2.1 ⟨"a", 1, "b", 1, 1⟩ ⟨"a", 1, "b", 1, 1⟩
    (by decide) (by decide) (by decide) (by decide) rfl).1

/-- C6. GC gating for both stores: with no persisted watermark, `gc` writes
the watermark to now and performs no other state change (no sweep); a `gc`
within the interval of a just-written watermark leaves the state unchanged;
with a present watermark that is not yet due, `gc` is the identity; and with a
due watermark, `gc` is exactly `gcNow`. -/
theorem gc_watermark_policy :
    (∀ (c : LCfg) (gcF : Int → LS → LS) (now : Int) (ls : LS),
      lsGetItem ls (gcMsStorageKey c) = none →
      gcA gcF c now ls = setLastGcMs c ls now)
    ∧ (∀ (c : LCfg) (gcF : Int → LS → LS) (now t : Int) (ls : LS),
      now ≠ 0 → t < now + c.gcIntervalMs →
      gcA gcF c t (setLastGcMs c ls now) = setLastGcMs c ls now)
    ∧ (∀ (c : LCfg) (gcF : Int → LS → LS) (t : Int) (ls : LS),
      getLastGcMs c ls ≠ 0 → t < getLastGcMs c ls + c.gcIntervalMs →
      gcA gcF c t ls = ls)
    ∧ (∀ (c : LCfg) (gcF : Int → LS → LS) (t : Int) (ls : LS),
      getLastGcMs c ls ≠ 0 → ¬ t < getLastGcMs c ls + c.gcIntervalMs →
      gcA gcF c t ls = gcNowA gcF c t t ls)
    ∧ (∀ (c : KCfg) (now : Int) (st : KvState),
      lsGetItem st.ls (kvGcMsStorageKey c) = none →
      kvGc c now st = { st with ls := kvSetLastGcMs c st.ls now })
    ∧ (∀ (c : KCfg) (now t : Int) (st : KvState),
      now ≠ 0 → t < now + c.gcIntervalMs →
      kvGc c t { st with ls := kvSetLastGcMs c st.ls now }
        = { st with ls := kvSetLastGcMs c st.ls now })
    ∧ (∀ (c : KCfg) (t : Int) (st : KvState),
      kvGetLastGcMs c st.ls ≠ 0 → t < kvGetLastGcMs c st.ls + c.gcIntervalMs →
      kvGc c t st = st)
    ∧ (∀ (c : KCfg) (t : Int) (st : KvState),
      kvGetLastGcMs c st.ls ≠ 0 → ¬ t < kvGetLastGcMs c st.ls + c.gcIntervalMs →
      kvGc c t st = kvGcNow c t t st) := by
  refine ⟨?_, ?_, ?_, ?_, ?_, ?_, ?_, ?_⟩
  · intro c gcF now ls h
    have h0 : getLastGcMs c ls = 0 := by simp [getLastGcMs, h]
    simp [gcA, h0]
  · intro c gcF now t ls hne hlt
    have h0 : getLastGcMs c (setLastGcMs c ls now) = now := getLastGcMs_setLastGcMs c ls now
    simp [gcA, h0, hne, hlt]
  · intro c gcF t ls hne hlt
    simp [gcA, hne, hlt]
  · intro c gcF t ls hne hlt
    simp [gcA, hne, hlt]
  · intro c now st h
    have h0 : kvGetLastGcMs c st.ls = 0 := by simp [kvGetLastGcMs, h]
    simp [kvGc, h0]
  · intro c now t st hne hlt
    have h0 : kvGetLastGcMs c (kvSetLastGcMs c st.ls now) = now := kvGetLastGcMs_set c st.ls now
    simp [kvGc, h0, hne, hlt]
  · intro c t st hne hlt
    simp [kvGc, hne, hlt]
  · intro c t st hne hlt
    simp [kvGc, hne, hlt]

/-- C6 witness: the policy applied to concrete stores (seeding on an empty
medium; a second call shortly after the seed is a no-op; a due watermark runs
the sweep). -/
theorem gc_watermark_policy_witness :
    gcA (fun _ ls => ls) demoLCfg 5 [] = setLastGcMs demoLCfg [] 5
    ∧ gcA (fun _ ls => ls) demoLCfg 6 (setLastGcMs demoLCfg [] 5)
        = setLastGcMs demoLCfg [] 5
    ∧ gcA (fun _ ls => ls) demoLCfg 2000 (setLastGcMs demoLCfg [] 5)
        = gcNowA (fun _ ls => ls) demoLCfg 2000 2000 (setLastGcMs demoLCfg [] 5)
    ∧ kvGc demoKCfg 5 ⟨[], []⟩
        = { db := [], ls := kvSetLastGcMs demoKCfg [] 5 }
    ∧ kvGc demoKCfg 6 ⟨[], kvSetLastGcMs demoKCfg [] 5⟩
        = ⟨[], kvSetLastGcMs demoKCfg [] 5⟩
    ∧ kvGc demoKCfg 2000 ⟨[], kvSetLastGcMs demoKCfg [] 5⟩
        = kvGcNow demoKCfg 2000 2000 ⟨[], kvSetLastGcMs demoKCfg [] 5⟩ := by
  refine ⟨gc_watermark_policy.1 demoLCfg (fun _ ls => ls) 5 [] rfl, ?_, ?_, ?_, ?_, ?_⟩
  · exact gc_watermark_policy.2.1 demoLCfg (fun _ ls => ls) 5 6 [] (by decide) (by decide)
  · have h := gc_watermark_policy.2.2.2.1 demoLCfg (fun _ ls => ls) 2000
      (setLastGcMs demoLCfg [] 5) (by rw [getLastGcMs_setLastGcMs]; decide)
      (by rw [getLastGcMs_setLastGcMs]; decide)
    exact h
  · exact gc_watermark_policy.2.2.2.2.1 demoKCfg 5 ⟨[], []⟩ rfl
  · have h := gc_watermark_policy.2.2.2.2.2.1 demoKCfg 5 6 ⟨[], []⟩ (by decide) (by decide)
    exact h
  · have h := gc_watermark_policy.2.2.2.2.2.2.2 demoKCfg 2000
      ⟨[], kvSetLastGcMs demoKCfg [] 5⟩ (by rw [kvGetLastGcMs_set]; decide)
      (by rw [kvGetLastGcMs_set]; decide)
    exact h

/-! Consistency of the instrumented durable GC with the plain model. -/

theorem kvGcNowT_fst (c : KCfg) (now nowEnd : Int) (st : KvState) :
    (kvGcNowT c now nowEnd st).1 = kvGcNow c now nowEnd st := rfl

theorem kvGcT_fst (c : KCfg) (now : Int) (st : KvState) :
    (kvGcT c now st).1 = kvGc c now st := by
  by_cases h1 : kvGetLastGcMs c st.ls = 0
  · simp [kvGcT, kvGc, h1]
  · by_cases h2 : now < kvGetLastGcMs c st.ls + c.gcIntervalMs <;>
      simp [kvGcT, kvGc, h1, h2, kvGcNowT_fst]

/-- C8. Both `set` operations return / resolve with exactly the value passed
in (never the envelope); and in the durable store the instrumented `set`
agrees with the plain model while its event order puts the `put` request and
the resolution of the pending result with the original value strictly before
every event of the opportunistic `gc` check, which `set` does not await. -/
theorem set_returns_value_resolve_before_gc :
    (∀ (c : LCfg) (fuel : Nat) (now : Int) (ls : LS) (key : String)
        (value : Option JsVal) (delta : Option DurOrMs),
      (LocalStore_set c fuel now ls key value delta).1 = value)
    ∧ (∀ (c : KCfg) (now : Int) (st : KvState) (key : String)
        (value : Option JsVal) (delta : Option DurOrMs),
      (kvSet c now st key value delta).1 = value)
    ∧ (∀ (c : KCfg) (now : Int) (st : KvState) (key : String)
        (value : Option JsVal) (delta : Option DurOrMs),
      (kvSetT c now st key value delta).1 = (kvSet c now st key value delta).1
      ∧ (kvSetT c now st key value delta).2.1 = (kvSet c now st key value delta).2
      ∧ ∃ record gcEvs,
          (kvSetT c now st key value delta).2.2
            = KvEv.put key record :: KvEv.resolve value :: gcEvs) := by
  refine ⟨fun _ _ _ _ _ _ _ => rfl, fun _ _ _ _ _ _ => rfl, ?_⟩
  intro c now st key value delta
  refine ⟨rfl, ?_, ⟨_, _, rfl⟩⟩
  exact kvGcT_fst c now _

/-! Consistency of the instrumented synchronous GC with the plain model. -/

theorem foldl_rel {α β γ : Type} (R : α → β → Prop) (f : α → γ → α) (g : β → γ → β)
    (hstep : ∀ a b x, R a b → R (f a x) (g b x)) :
    ∀ (xs : List γ) (a : α) (b : β), R a b → R (xs.foldl f a) (xs.foldl g b) := by
  intro xs
  induction xs with
  | nil => intro a b h; exact h
  | cons x xs ih =>
    intro a b h
    exact ih _ _ (hstep a b x h)

theorem getStoredObjectT_agree (gcFT : Int → LS → LS × List LsEv)
    (gcF : Int → LS → LS) (hg : ∀ t l, (gcFT t l).1 = gcF t l) (c : LCfg)
    (now : Int) (ls : LS) (key : String) :
    (getStoredObjectT gcFT c now ls key).1 = (getStoredObjectA gcF c now ls key).1
    ∧ (getStoredObjectT gcFT c now ls key).2.1
        = (getStoredObjectA gcF c now ls key).2 := by
  cases h : lsGetItem ls (keyPref c ++ key) with
  | none => simp [getStoredObjectT, getStoredObjectA, h]
  | some text =>
    by_cases hf : textFalsy text
    · simp [getStoredObjectT, getStoredObjectA, h, hf]
    · cases hp : jsonParse text with
      | none => simp [getStoredObjectT, getStoredObjectA, h, hf, hp, hg]
      | some parsed =>
        cases hv : validateStoredObject now parsed with
        | none => simp [getStoredObjectT, getStoredObjectA, h, hf, hp, hv, hg]
        | some o => simp [getStoredObjectT, getStoredObjectA, h, hf, hp, hv]

theorem gcSweepT_fst (gcFT : Int → LS → LS × List LsEv) (gcF : Int → LS → LS)
    (hg : ∀ t l, (gcFT t l).1 = gcF t l) (c : LCfg) (now : Int) (ls0 : LS) :
    (gcSweepT gcFT c now ls0).1 = (forEachA gcF c now (gcSweepCb c now) 0 ls0).2 := by
  unfold gcSweepT forEachA
  refine foldl_rel (fun (p : LS × List LsEv) (q : Nat × LS) => p.1 = q.2)
    _ _ ?_ (lsKeys ls0) (ls0, []) ((0 : Nat), ls0) rfl
  intro a b k hab
  obtain ⟨als, aevs⟩ := a
  obtain ⟨bn, bls⟩ := b
  simp only at hab
  subst hab
  by_cases hpre : strStartsWith k (keyPref c)
  · simp only [hpre, if_pos]
    have hagree := getStoredObjectT_agree gcFT gcF hg c now als
      (strDropN k (keyPref c).length)
    cases hT : getStoredObjectT gcFT c now als (strDropN k (keyPref c).length) with
    | mk tRes tPair =>
      cases hA : getStoredObjectA gcF c now als (strDropN k (keyPref c).length) with
      | mk ao als2 =>
        rw [hT, hA] at hagree
        simp only at hagree
        obtain ⟨h1, h2⟩ := hagree
        subst h1
        cases tRes with
        | none => simp [hT, hA, h2]
        | some o =>
          by_cases he : now ≥ jexpiry o <;> simp [hT, hA, h2, gcSweepCb, he]
  · simp [hpre]

theorem gcNowT_fst (gcFT : Int → LS → LS × List LsEv) (gcF : Int → LS → LS)
    (hg : ∀ t l, (gcFT t l).1 = gcF t l) (c : LCfg) (now nowEnd : Int) (ls : LS) :
    (gcNowT gcFT c now nowEnd ls).1 = gcNowA gcF c now nowEnd ls := by
  simp only [gcNowT, gcNowA]
  rw [gcSweepT_fst gcFT gcF hg]

theorem gcAT_fst (gcFT : Int → LS → LS × List LsEv) (gcF : Int → LS → LS)
    (hg : ∀ t l, (gcFT t l).1 = gcF t l) (c : LCfg) (now : Int) (ls : LS) :
    (gcAT gcFT c now ls).1 = gcA gcF c now ls := by
  by_cases h1 : getLastGcMs c ls = 0
  · simp [gcAT, gcA, h1]
  · by_cases h2 : now < getLastGcMs c ls + c.gcIntervalMs
    · simp [gcAT, gcA, h1, h2]
    · simp [gcAT, gcA, h1, h2, gcNowT_fst gcFT gcF hg]

theorem gcFuelT_fst (c : LCfg) :
    ∀ (fuel : Nat) (t : Int) (ls : LS),
      (gcFuelT c fuel t ls).1 = gcFuelL c fuel t ls := by
  intro fuel
  induction fuel with
  | zero => intro t ls; rfl
  | succ n ih =>
    intro t ls
    exact gcAT_fst (gcFuelT c n) (gcFuelL c n) (fun t l => ih t l) c t ls

/-- C7. In `gcNow` of either store the first state-changing action is the
watermark write to now, strictly before the sweep's reads and deletions, and
the watermark is written again after the sweep; the instrumented executions
agree with the plain models; and consequently a `gc` that runs after the
first write, within the GC interval of a nonzero `now`, changes nothing (no
second sweep starts). -/
theorem gcNow_watermark_first_guard :
    (∀ (c : LCfg) (fuel : Nat) (now nowEnd : Int) (ls : LS),
      (gcNowT (gcFuelT c fuel) c now nowEnd ls).1
        = gcNowA (gcFuelL c fuel) c now nowEnd ls)
    ∧ (∀ (c : LCfg) (fuel : Nat) (now nowEnd : Int) (ls : LS), ∃ mid,
      (gcNowT (gcFuelT c fuel) c now nowEnd ls).2
        = LsEv.write (gcMsStorageKey c) (.json (.jnum now)) ::
            (mid ++ [LsEv.write (gcMsStorageKey c) (.json (.jnum nowEnd))]))
    ∧ (∀ (c : LCfg) (gcF : Int → LS → LS) (now t : Int) (ls : LS),
      now ≠ 0 → t < now + c.gcIntervalMs →
      gcA gcF c t (setLastGcMs c ls now) = setLastGcMs c ls now)
    ∧ (∀ (c : KCfg) (now nowEnd : Int) (st : KvState),
      (kvGcNowT c now nowEnd st).1 = kvGcNow c now nowEnd st)
    ∧ (∀ (c : KCfg) (now nowEnd : Int) (st : KvState), ∃ mid,
      (kvGcNowT c now nowEnd st).2
        = KvEv.wmWrite now :: (mid ++ [KvEv.wmWrite nowEnd]))
    ∧ (∀ (c : KCfg) (now t : Int) (st : KvState),
      now ≠ 0 → t < now + c.gcIntervalMs →
      kvGc c t { st with ls := kvSetLastGcMs c st.ls now }
        = { st with ls := kvSetLastGcMs c st.ls now }) := by
  refine ⟨?_, ?_, ?_, ?_, ?_, ?_⟩
  · intro c fuel now nowEnd ls
    exact gcNowT_fst (gcFuelT c fuel) (gcFuelL c fuel) (gcFuelT_fst c fuel) c now nowEnd ls
  · intro c fuel now nowEnd ls
    exact ⟨(gcSweepT (gcFuelT c fuel) c now (setLastGcMs c ls now)).2, rfl⟩
  · intro c gcF now t ls hne hlt
    have h0 : getLastGcMs c (setLastGcMs c ls now) = now := getLastGcMs_setLastGcMs c ls now
    simp [gcA, h0, hne, hlt]
  · intro c now nowEnd st
    exact kvGcNowT_fst c now nowEnd st
  · intro c now nowEnd st
    exact ⟨_, rfl⟩
  · intro c now t st hne hlt
    have h0 : kvGetLastGcMs c (kvSetLastGcMs c st.ls now) = now := kvGetLastGcMs_set c st.ls now
    simp [kvGc, h0, hne, hlt]

/-- C7 witness: the guard consequence applied at concrete inputs (a gc firing
right after a sweep's first watermark write is a no-op for both stores). -/
theorem gcNow_watermark_first_guard_witness :
    gcA (fun _ ls => ls) demoLCfg 6 (setLastGcMs demoLCfg [] 5)
      = setLastGcMs demoLCfg [] 5
    ∧ kvGc demoKCfg 6 ⟨[], kvSetLastGcMs demoKCfg [] 5⟩
      = ⟨[], kvSetLastGcMs demoKCfg [] 5⟩ := by
  refine ⟨gcNow_watermark_first_guard.2.2.1 demoLCfg (fun _ ls => ls) 5 6 []
    (by decide) (by decide), ?_⟩
  have h := gcNow_watermark_first_guard.2.2.2.2.2 demoKCfg 5 6 ⟨[], []⟩
    (by decide) (by decide)
  exact h

/-! Round-trip machinery for the set-then-get claim. -/

/-- The envelope object written by `set` for a defined value. -/
def roundObj (value : JsVal) (now d : Int) : JsVal :=
  .jobj (storedFields (some value) now (now + d))

theorem jprop_roundObj_value (v : JsVal) (now d : Int) :
    jprop (roundObj v now d) "value" = some v := rfl

theorem jprop_roundObj_expiry (v : JsVal) (now d : Int) :
    jprop (roundObj v now d) "expiryMs" = some (.jnum (now + d)) := rfl

theorem jexpiry_roundObj (v : JsVal) (now d : Int) :
    jexpiry (roundObj v now d) = now + d := rfl

/-- The validator accepts a freshly written envelope with a positive delta. -/
theorem validate_roundObj (v : JsVal) (now d : Int) (hd : 0 < d) :
    validateStoredObject now (roundObj v now d) = some (roundObj v now d) := by
  have h1 : isFalsy (roundObj v now d) = false := rfl
  have h2 : isObjLike (roundObj v now d) = true := rfl
  have h3 : jprop (roundObj v now d) "value" = some v := rfl
  have h4 : isNumOpt (jprop (roundObj v now d) "storedMs") = true := rfl
  have h5 : jprop (roundObj v now d) "expiryMs" = some (.jnum (now + d)) := rfl
  simp only [validateStoredObject, h1, h2, h3, h4, h5, Bool.not_true, Bool.not_false,
    Option.isNone_some, Bool.false_eq_true, if_false, if_true]
  rw [if_neg (by omega : ¬ now ≥ now + d)]

/-- The synchronous validator returns its input when it returns anything. -/
theorem validate_some_eq {now : Int} {x o : JsVal}
    (h : validateStoredObject now x = some o) : o = x := by
  unfold validateStoredObject at h
  split at h
  · exact absurd h (by simp)
  · split at h
    · exact absurd h (by simp)
    · split at h
      · exact absurd h (by simp)
      · split at h
        · exact absurd h (by simp)
        · split at h
          · split at h
            · exact absurd h (by simp)
            · exact (Option.some.inj h).symm
          · exact absurd h (by simp)

/-- The durable validator returns its input, which has a defined value and is
unexpired, whenever it returns anything. -/
theorem validateKv_some_facts {now : Int} {x o : JsVal}
    (h : validateKvStoredObject now x = some o) :
    o = x ∧ (jprop x "value").isNone = false ∧ now < jexpiry x := by
  unfold validateKvStoredObject at h
  split at h
  · exact absurd h (by simp)
  · split at h
    · exact absurd h (by simp)
    · split at h
      · exact absurd h (by simp)
      · split at h
        · exact absurd h (by simp)
        · split at h
          · exact absurd h (by simp)
          · rename_i hval hnum
            split at h
            · rename_i e he
              split at h
              · exact absurd h (by simp)
              · rename_i hexp
                refine ⟨(Option.some.inj h).symm, ?_, ?_⟩
                · revert hval
                  cases (jprop x "value").isNone <;> simp
                · simp only [jexpiry, he]
                  omega
            · exact absurd h (by simp)

/-! Prefix and key-aliasing helpers. -/

theorem strStartsWith_of_append (p a : String) : strStartsWith (p ++ a) p = true := by
  simp [strStartsWith, String.data_append, List.isPrefixOf_iff_prefix, List.prefix_append]

theorem doublePref_ne (c : LCfg) (key : String)
    (hkp : strStartsWith key (keyPref c) = false) (key0 : String) :
    keyPref c ++ (keyPref c ++ key0) ≠ keyPref c ++ key := by
  intro h
  have h1 := strAppend_left_cancel h
  have h2 := strStartsWith_of_append (keyPref c) key0
  rw [h1] at h2
  rw [h2] at hkp
  exact Bool.noConfusion hkp

/-- Invariance of one binding under an action on the medium. -/
def PresInv (K : String) (t : LSText) (f : Int → LS → LS) (now : Int) : Prop :=
  ∀ ls : LS, lsGetItem ls K = some t → lsGetItem (f now ls) K = some t

/-- One `getStoredObject` call preserves the fresh binding at
`keyPrefix + key` (its inline deletes target doubly-prefixed keys, which
cannot alias the binding when the user key does not itself start with the
prefix), and when it reads that very binding it returns exactly what the
validator says. -/
theorem getStoredObjectA_pres (gcF : Int → LS → LS) (c : LCfg) (now : Int)
    (key : String) (OBJ : JsVal)
    (hkp : strStartsWith key (keyPref c) = false)
    (hg : PresInv (keyPref c ++ key) (.json OBJ) gcF now) :
    ∀ (ls : LS) (key0 : String),
      lsGetItem ls (keyPref c ++ key) = some (.json OBJ) →
      lsGetItem ((getStoredObjectA gcF c now ls key0).2) (keyPref c ++ key)
          = some (.json OBJ)
      ∧ (keyPref c ++ key0 = keyPref c ++ key →
          (getStoredObjectA gcF c now ls key0).1 = validateStoredObject now OBJ) := by
  intro ls key0 hInv
  by_cases hk : keyPref c ++ key0 = keyPref c ++ key
  · have hl : lsGetItem ls (keyPref c ++ key0) = some (.json OBJ) := by
      rw [hk]; exact hInv
    cases hv : validateStoredObject now OBJ with
    | none =>
      refine ⟨?_, fun _ => ?_⟩
      · simp only [getStoredObjectA, hl, textFalsy, jsonParse, hv, Bool.false_eq_true, if_false]
        apply hg
        simp only [deleteOneA, hk]
        rw [lsGetItem_remove_ne _ _ _ (Ne.symm (doublePref_ne c key hkp key))]
        exact hInv
      · simp [getStoredObjectA, hl, textFalsy, jsonParse, hv]
    | some o =>
      refine ⟨by simp [getStoredObjectA, hl, textFalsy, jsonParse, hv, hInv],
        fun _ => by simp [getStoredObjectA, hl, textFalsy, jsonParse, hv]⟩
  · cases hl : lsGetItem ls (keyPref c ++ key0) with
    | none => exact ⟨by simp [getStoredObjectA, hl, hInv], fun hc => absurd hc hk⟩
    | some text =>
      by_cases hf : textFalsy text
      · exact ⟨by simp [getStoredObjectA, hl, hf, hInv], fun hc => absurd hc hk⟩
      · cases hp : jsonParse text with
        | none =>
          refine ⟨?_, fun hc => absurd hc hk⟩
          simp only [getStoredObjectA, hl, hf, hp, Bool.false_eq_true, if_false]
          apply hg
          simp only [deleteOneA]
          rw [lsGetItem_remove_ne _ _ _ (Ne.symm (doublePref_ne c key hkp key0))]
          exact hInv
        | some parsed =>
          cases hv : validateStoredObject now parsed with
          | none =>
            refine ⟨?_, fun hc => absurd hc hk⟩
            simp only [getStoredObjectA, hl, hf, hp, hv, Bool.false_eq_true, if_false]
            apply hg
            simp only [deleteOneA]
            rw [lsGetItem_remove_ne _ _ _ (Ne.symm (doublePref_ne c key hkp key0))]
            exact hInv
          | some o =>
            exact ⟨by simp [getStoredObjectA, hl, hf, hp, hv, hInv], fun hc => absurd hc hk⟩

/-- The `gcNow` sweep preserves the fresh binding: entries it deletes are
either other keys or, when a sweep step reads the fresh binding itself, the
validator accepts it unexpired and the callback does not delete it. -/
theorem forEach_sweep_pres (gcF : Int → LS → LS) (c : LCfg) (now : Int)
    (key : String) (OBJ : JsVal)
    (hkp : strStartsWith key (keyPref c) = false)
    (hg : PresInv (keyPref c ++ key) (.json OBJ) gcF now)
    (hval : validateStoredObject now OBJ = some OBJ)
    (hexp : ¬ now ≥ jexpiry OBJ) :
    ∀ (ks : List String) (acc : Nat × LS),
      lsGetItem acc.2 (keyPref c ++ key) = some (.json OBJ) →
      lsGetItem ((ks.foldl (fun acc k =>
          if strStartsWith k (keyPref c) then
            match getStoredObjectA gcF c now acc.2 (strDropN k (keyPref c).length) with
            | (none, ls2) => (acc.1, ls2)
            | (some o, ls2) =>
              gcSweepCb c now acc.1 ls2 (strDropN k (keyPref c).length)
                (jprop o "value") (jexpiry o) (jstored o)
          else acc) acc).2) (keyPref c ++ key) = some (.json OBJ) := by
  intro ks
  induction ks with
  | nil => intro acc h; simpa using h
  | cons k ks ih =>
    intro acc hInv
    rw [List.foldl_cons]
    apply ih
    by_cases hpre : strStartsWith k (keyPref c)
    · simp only [hpre, if_true]
      have hstep := getStoredObjectA_pres gcF c now key OBJ hkp hg acc.2
        (strDropN k (keyPref c).length) hInv
      cases hA : getStoredObjectA gcF c now acc.2 (strDropN k (keyPref c).length) with
      | mk o ls2 =>
        rw [hA] at hstep
        cases o with
        | none => simpa using hstep.1
        | some o1 =>
          simp only [gcSweepCb]
          by_cases he : now ≥ jexpiry o1
          · simp only [he, if_true]
            by_cases hkk : keyPref c ++ strDropN k (keyPref c).length = keyPref c ++ key
            · have h2 := hstep.2 hkk
              rw [hval] at h2
              have ho : o1 = OBJ := Option.some.inj h2
              rw [ho] at he
              exact absurd he hexp
            · simp only [deleteOneA]
              rw [lsGetItem_remove_ne _ _ _ (Ne.symm hkk)]
              exact hstep.1
          · simp only [he, if_false]
            exact hstep.1
    · simp only [hpre, Bool.false_eq_true, if_false]
      exact hInv

/-- The full `gcNow` preserves the fresh binding. -/
theorem gcNowA_pres (gcF : Int → LS → LS) (c : LCfg) (now nowEnd : Int)
    (key : String) (OBJ : JsVal)
    (hkp : strStartsWith key (keyPref c) = false)
    (hg : PresInv (keyPref c ++ key) (.json OBJ) gcF now)
    (hval : validateStoredObject now OBJ = some OBJ)
    (hexp : ¬ now ≥ jexpiry OBJ)
    (hwm : keyPref c ++ key ≠ gcMsStorageKey c) :
    ∀ ls : LS,
      lsGetItem ls (keyPref c ++ key) = some (.json OBJ) →
      lsGetItem (gcNowA gcF c now nowEnd ls) (keyPref c ++ key) = some (.json OBJ) := by
  intro ls hInv
  have h1 : lsGetItem (setLastGcMs c ls now) (keyPref c ++ key) = some (.json OBJ) := by
    rw [setLastGcMs, lsGetItem_set_ne _ _ _ _ hwm]
    exact hInv
  show lsGetItem
      (setLastGcMs c (forEachA gcF c now (gcSweepCb c now) 0 (setLastGcMs c ls now)).2 nowEnd)
      (keyPref c ++ key) = some (.json OBJ)
  rw [setLastGcMs, lsGetItem_set_ne _ _ _ _ hwm]
  exact forEach_sweep_pres gcF c now key OBJ hkp hg hval hexp
    (lsKeys (setLastGcMs c ls now)) (0, setLastGcMs c ls now) h1

/-- The gated `gc` preserves the fresh binding. -/
theorem gcA_pres (gcF : Int → LS → LS) (c : LCfg) (now : Int)
    (key : String) (OBJ : JsVal)
    (hkp : strStartsWith key (keyPref c) = false)
    (hg : PresInv (keyPref c ++ key) (.json OBJ) gcF now)
    (hval : validateStoredObject now OBJ = some OBJ)
    (hexp : ¬ now ≥ jexpiry OBJ)
    (hwm : keyPref c ++ key ≠ gcMsStorageKey c) :
    ∀ ls : LS,
      lsGetItem ls (keyPref c ++ key) = some (.json OBJ) →
      lsGetItem (gcA gcF c now ls) (keyPref c ++ key) = some (.json OBJ) := by
  intro ls hInv
  by_cases h1 : getLastGcMs c ls = 0
  · simp only [gcA, h1, if_true]
    rw [setLastGcMs, lsGetItem_set_ne _ _ _ _ hwm]
    exact hInv
  · by_cases h2 : now < getLastGcMs c ls + c.gcIntervalMs
    · simp only [gcA, h1, h2, if_true, if_false]
      exact hInv
    · simp only [gcA, h1, h2, if_false]
      exact gcNowA_pres gcF c now now key OBJ hkp hg hval hexp hwm ls hInv

/-- The fueled opportunistic `gc` preserves the fresh binding at any depth. -/
theorem gcFuelL_pres (c : LCfg) (now : Int) (key : String) (OBJ : JsVal)
    (hkp : strStartsWith key (keyPref c) = false)
    (hval : validateStoredObject now OBJ = some OBJ)
    (hexp : ¬ now ≥ jexpiry OBJ)
    (hwm : keyPref c ++ key ≠ gcMsStorageKey c) :
    ∀ fuel : Nat, PresInv (keyPref c ++ key) (.json OBJ) (gcFuelL c fuel) now := by
  intro fuel
  induction fuel with
  | zero => intro ls h; exact h
  | succ n ih =>
    intro ls h
    exact gcA_pres (gcFuelL c n) c now key OBJ hkp ih hval hexp hwm ls h

/-! Durable-store facts for the round-trip claim. -/

theorem kvCollect_nil (now : Int) :
    ∀ (db : List (String × JsVal)) (acc : List String),
      kvForEachA now
        (fun (ks : List String) key v e _s =>
          if v.isNone || now ≥ e then ks ++ [key] else ks) acc db = acc := by
  intro db
  induction db with
  | nil => intro acc; rfl
  | cons p rest ih =>
    intro acc
    by_cases hk : p.1 = ""
    · simp only [kvForEachA, List.foldl_cons, hk, if_true]
      exact ih acc
    · cases hv : validateKvStoredObject now p.2 with
      | none =>
        simp only [kvForEachA, List.foldl_cons, hk, Bool.false_eq_true, if_false, hv]
        exact ih acc
      | some o =>
        obtain ⟨ho, hvn, hlt⟩ := validateKv_some_facts hv
        subst ho
        have hnn : ¬ now ≥ jexpiry p.2 := by omega
        simp only [kvForEachA, List.foldl_cons, hk, Bool.false_eq_true, if_false, hv,
          hvn, decide_eq_false hnn, Bool.or_false]
        simpa [kvForEachA] using ih acc

theorem kvGcNow_db (c : KCfg) (now nowEnd : Int) (st : KvState) :
    (kvGcNow c now nowEnd st).db = st.db := by
  simp [kvGcNow, kvCollect_nil]

theorem kvGc_db (c : KCfg) (now : Int) (st : KvState) :
    (kvGc c now st).db = st.db := by
  by_cases h1 : kvGetLastGcMs c st.ls = 0
  · simp [kvGc, h1]
  · by_cases h2 : now < kvGetLastGcMs c st.ls + c.gcIntervalMs <;>
      simp [kvGc, h1, h2, kvGcNow_db]

theorem kvLookup_put_self : ∀ (db : List (String × JsVal)) (k : String) (v : JsVal),
    kvLookup (kvPut db k v) k = some v := by
  intro db
  induction db with
  | nil => intro k v; simp [kvPut, kvLookup]
  | cons p rest ih =>
    intro k v
    by_cases h : p.1 = k <;> simp [kvPut, kvLookup, h, ih]

/-- The record written by the durable `set` for a defined value. -/
def kvRoundRec (key : String) (value : JsVal) (now d : Int) : JsVal :=
  .jobj (kvStoredFields key (some value) now (now + d))

theorem jprop_kvRoundRec_value (key : String) (value : JsVal) (now d : Int) :
    jprop (kvRoundRec key value now d) "value" = some value := rfl

/-- The durable validator accepts a freshly written record with a positive
delta. -/
theorem validate_kvRoundRec (key : String) (value : JsVal) (now d : Int) (hd : 0 < d) :
    validateKvStoredObject now (kvRoundRec key value now d)
      = some (kvRoundRec key value now d) := by
  have h1 : isFalsy (kvRoundRec key value now d) = false := rfl
  have h2 : isObjLike (kvRoundRec key value now d) = true := rfl
  have h2k : isStrOpt (jprop (kvRoundRec key value now d) "key") = true := rfl
  have h3 : jprop (kvRoundRec key value now d) "value" = some value := rfl
  have h4 : isNumOpt (jprop (kvRoundRec key value now d) "storedMs") = true := rfl
  have h5 : jprop (kvRoundRec key value now d) "expiryMs" = some (.jnum (now + d)) := rfl
  simp only [validateKvStoredObject, h1, h2, h2k, h3, h4, h5, Bool.not_true, Bool.not_false,
    Option.isNone_some, Bool.false_eq_true, if_false, if_true]
  rw [if_neg (by omega : ¬ now ≥ now + d)]

/-- C3 counterexample. With `delta = 0` (a legal millisecond delta), `set`
followed immediately by `get` returns absent in both stores, because the
freshly written envelope is already expired at its own write time
(`now >= expiryMs` holds with equality); so the claim as stated over all
deltas is false. -/
theorem set_get_roundtrip_zero_delta_cex :
    (LocalStore_set demoLCfg 1 10 [] "k" (some (.jnum 7)) (some (.ms 0))).1
      = some (.jnum 7)
    ∧ (LocalStore_get demoLCfg 1 10
        (LocalStore_set demoLCfg 1 10 [] "k" (some (.jnum 7)) (some (.ms 0))).2 "k").1
      = none
    ∧ (kvSet demoKCfg 10 ⟨[], []⟩ "k" (some (.jnum 7)) (some (.ms 0))).1
      = some (.jnum 7)
    ∧ (kvGet demoKCfg 10
        (kvSet demoKCfg 10 ⟨[], []⟩ "k" (some (.jnum 7)) (some (.ms 0))).2 "k").1
      = none := by
  refine ⟨rfl, rfl, rfl, rfl⟩

/-- C3 amended. For every positive expiry delta, `set` followed immediately by
`get` on the same store returns the stored value unchanged: unconditionally
for the durable store, and for the synchronous store provided the GC
interval is positive, the user key does not itself start with the store's key
prefix, and the prefixed key is not the store's watermark key (otherwise the
buggy doubly-prefixed inline delete, unbounded nested sweeps, or the watermark
write can clobber the fresh record or the operation). -/
theorem set_get_roundtrip_amended :
    (∀ (c : LCfg) (fuel : Nat) (now : Int) (ls : LS) (key : String) (value : JsVal)
        (delta : DurOrMs),
      0 < durationOrMsToMs delta →
      0 < c.gcIntervalMs →
      strStartsWith key (keyPref c) = false →
      keyPref c ++ key ≠ gcMsStorageKey c →
      (LocalStore_set c fuel now ls key (some value) (some delta)).1 = some value
      ∧ (LocalStore_get c fuel now
          (LocalStore_set c fuel now ls key (some value) (some delta)).2 key).1
        = some value)
    ∧ (∀ (c : KCfg) (now : Int) (st : KvState) (key : String) (value : JsVal)
        (delta : DurOrMs),
      0 < durationOrMsToMs delta →
      (kvSet c now st key (some value) (some delta)).1 = some value
      ∧ (kvGet c now (kvSet c now st key (some value) (some delta)).2 key).1
        = some value) := by
  constructor
  · intro c fuel now ls key value delta hd _hint hkp hwm
    refine ⟨rfl, ?_⟩
    have hval := validate_roundObj value now (durationOrMsToMs delta) hd
    have hexp : ¬ now ≥ jexpiry (roundObj value now (durationOrMsToMs delta)) := by
      rw [jexpiry_roundObj]
      omega
    have hfuel := gcFuelL_pres c now key (roundObj value now (durationOrMsToMs delta))
      hkp hval hexp hwm fuel
    have hInv1 : lsGetItem
        (lsSetItem ls (keyPref c ++ key) (.json (roundObj value now (durationOrMsToMs delta))))
        (keyPref c ++ key)
        = some (.json (roundObj value now (durationOrMsToMs delta))) :=
      lsGetItem_set_self _ _ _
    have hInv2 := hfuel _ hInv1
    have hread := (getStoredObjectA_pres (gcFuelL c fuel) c now key
      (roundObj value now (durationOrMsToMs delta)) hkp hfuel _ key hInv2).2 rfl
    show (getA (gcFuelL c fuel) c now
      (gcFuelL c fuel now
        (lsSetItem ls (keyPref c ++ key)
          (.json (roundObj value now (durationOrMsToMs delta))))) key).1 = some value
    simp only [getA]
    rw [hread, hval]
    simp [jprop_roundObj_value]
  · intro c now st key value delta hd
    refine ⟨rfl, ?_⟩
    have hl : kvLookup ((kvSet c now st key (some value) (some delta)).2).db key
        = some (kvRoundRec key value now (durationOrMsToMs delta)) := by
      show kvLookup ((kvGc c now
        { st with db := kvPut st.db key (kvRoundRec key value now (durationOrMsToMs delta)) }).db)
        key = some (kvRoundRec key value now (durationOrMsToMs delta))
      rw [kvGc_db]
      exact kvLookup_put_self st.db key _
    have hfal : isFalsy (kvRoundRec key value now (durationOrMsToMs delta)) = false := rfl
    have hv := validate_kvRoundRec key value now (durationOrMsToMs delta) hd
    simp only [kvGet, kvGetStoredObject, hl, hfal, Bool.false_eq_true, if_false, hv]
    simp [jprop_kvRoundRec_value]

/-- C3 witness: the amended round trip at a concrete store, key, value, and
positive delta. -/
theorem set_get_roundtrip_amended_witness :
    (LocalStore_set demoLCfg 1 10 [] "k" (some (.jnum 7)) (some (.ms 50))).1
      = some (.jnum 7)
    ∧ (LocalStore_get demoLCfg 1 10
        (LocalStore_set demoLCfg 1 10 [] "k" (some (.jnum 7)) (some (.ms 50))).2 "k").1
      = some (.jnum 7)
    ∧ (kvGet demoKCfg 10
        (kvSet demoKCfg 10 ⟨[], []⟩ "k" (some (.jnum 7)) (some (.ms 50))).2 "k").1
      = some (.jnum 7) := by
  have h1 := set_get_roundtrip_amended.1 demoLCfg 1 10 [] "k" (.jnum 7) (.ms 50)
    (by decide) (by decide) (by decide) (by decide)
  have h2 := set_get_roundtrip_amended.2 demoKCfg 10 ⟨[], []⟩ "k" (.jnum 7) (.ms 50)
    (by decide)
  exact ⟨h1.1, h1.2, h2.2⟩

/-- C10. The class-based `LocalStore` and the factory-based
`createLocalStore` are observably equivalent: for every store name, options,
global defaults, fuel, initial medium state, and sequence of public
operations, both produce the same outputs and the same final medium state
(their constructors also resolve configuration identically). -/
theorem class_factory_store_equivalence :
    ∀ (g : LSGlobalConfig) (storeName : String) (opts : LSOptions) (fuel : Nat)
      (ops : List SOp) (ls : LS),
      runFactory (mkCreateLocalStoreCfg g storeName opts) fuel ops ls
        = runClass (mkLocalStoreCfg g storeName opts) fuel ops ls := by
  have hfuel : ∀ (c : LCfg) (fuel : Nat), fGcFuel c fuel = gcFuelL c fuel := by
    intro c fuel
    induction fuel with
    | zero => rfl
    | succ n ih =>
      funext now ls
      show fGcA (fGcFuel c n) c now ls = gcA (gcFuelL c n) c now ls
      rw [ih]
      rfl
  have hop : ∀ (c : LCfg) (fuel : Nat) (ls : LS) (op : SOp),
      runFactoryOp c fuel ls op = runClassOp c fuel ls op := by
    intro c fuel ls op
    cases op <;>
      simp only [runFactoryOp, runClassOp, createLocalStore_set, createLocalStore_get,
        createLocalStore_getStoredObject, createLocalStore_deleteOne,
        createLocalStore_deleteMany, createLocalStore_forEach, createLocalStore_size,
        createLocalStore_clear, createLocalStore_asMap, createLocalStore_gc,
        createLocalStore_gcNow, LocalStore_set, LocalStore_get, LocalStore_getStoredObject,
        LocalStore_deleteOne, LocalStore_deleteMany, LocalStore_forEach, LocalStore_size,
        LocalStore_clear, LocalStore_asMap, LocalStore_gc, LocalStore_gcNow, hfuel] <;>
      rfl
  have hcfg : ∀ (g : LSGlobalConfig) (s : String) (o : LSOptions),
      mkCreateLocalStoreCfg g s o = mkLocalStoreCfg g s o := fun _ _ _ => rfl
  intro g s o fuel ops
  rw [hcfg]
  induction ops with
  | nil => intro ls; rfl
  | cons op ops ih =>
    intro ls
    simp only [runFactory, runClass, hop]
    rw [ih]

end TsUtils
